import Mathlib

/-!
Verification development for the `travel` repository.

The repository holds three small Go programs that share one pipeline:
read a 5-column CSV of travel visits, parse each row into a `visit`,
optionally resolve missing coordinates through a geocoding lookup,
deduplicate (first program only), sort, rewrite the CSV, and serialize
to GeoJSON.  The programs are:

  * variant 1 (`src/unnamed/part_000`, first program): parse, dedup by a
    formatted-coordinate key, sort by date, serialize;
  * variant 2 (`src/unnamed/part_000`, second program): parse with trim,
    geocode lookup for `(0,0)` rows, sort by date then address, rewrite
    the CSV with 4-decimal coordinates, serialize, partition by purpose;
  * `src/resolve/resolve.go`: like variant 2 but without trimming,
    without the purpose partition, with a different lookup (`loopkup`)
    and a serializer that does not truncate coordinates.

Modelling conventions: Go `float64` coordinates are modelled as exact
rationals (`Rat`); `strconv.ParseFloat` is modelled on the plain decimal
forms (optional sign, digits, optional fraction) — exponent, hex, inf
and NaN spellings are not modelled; `fmt.Sprintf "%.04f"` and
`strconv.FormatFloat _ 'f' prec 64` are modelled by exact decimal
rounding to `prec` places (a `float64` is a dyadic rational, so it is
never an exact tie at 4 or 6 decimal places and the tie-breaking rule
is immaterial); network I/O is modelled by an explicit outcome value
passed to the lookup functions; `time.Time` values produced by
`time.Parse("2006-01-02", _)` are modelled as calendar dates.
-/

namespace Travel

/-- Whitespace recognised by the model of Go's `strings.TrimSpace`
(the ASCII space characters; the rarely used non-ASCII Unicode spaces
are not modelled). -/
def isSpaceChar (c : Char) : Bool :=
  c = ' ' || c = '\t' || c = '\n' || c = '\x0b' || c = '\x0c' || c = '\r'

/-- Characters of a string with leading and trailing whitespace removed. -/
def trimChars (cs : List Char) : List Char :=
  ((cs.dropWhile isSpaceChar).reverse.dropWhile isSpaceChar).reverse

/-- Model of Go's `strings.TrimSpace`. -/
def goTrim (s : String) : String := String.mk (trimChars s.data)

/-- The decimal digit character for `n % 10`-style arguments below 10. -/
def digitChar (n : Nat) : Char :=
  match n with
  | 0 => '0' | 1 => '1' | 2 => '2' | 3 => '3' | 4 => '4'
  | 5 => '5' | 6 => '6' | 7 => '7' | 8 => '8' | _ => '9'

/-- The numeric value of a decimal digit character, `none` otherwise. -/
def digitVal (c : Char) : Option Nat :=
  if c = '0' then some 0 else if c = '1' then some 1
  else if c = '2' then some 2 else if c = '3' then some 3
  else if c = '4' then some 4 else if c = '5' then some 5
  else if c = '6' then some 6 else if c = '7' then some 7
  else if c = '8' then some 8 else if c = '9' then some 9
  else none

/-- Whether a character is a decimal digit. -/
def isDigitChar (c : Char) : Bool := (digitVal c).isSome

/-- Decimal digits of `n`, most significant first, with explicit fuel so
that the definition is structural and evaluates inside the kernel.  The
fuel is sufficient whenever `n < fuel`. -/
def natDigitsFuel : Nat → Nat → List Char
  | 0, _ => []
  | fuel + 1, n =>
    if n < 10 then [digitChar n]
    else natDigitsFuel fuel (n / 10) ++ [digitChar (n % 10)]

/-- Decimal digits of `n`, most significant first. -/
def natDigits (n : Nat) : List Char := natDigitsFuel (n + 1) n

/-- Exactly `w` decimal digit characters: `n % 10 ^ w` zero-padded. -/
def padDigits : Nat → Nat → List Char
  | 0, _ => []
  | w + 1, n => padDigits w (n / 10) ++ [digitChar (n % 10)]

/-- Value accumulated by reading decimal digits left to right, starting
from `acc`; non-digit characters contribute 0 (used only on digit
lists). -/
def digitsVal (acc : Nat) (l : List Char) : Nat :=
  l.foldl (fun a c => a * 10 + (digitVal c).getD 0) acc

/-- Read decimal digits left to right, failing on a non-digit. -/
def parseDigitsAcc (acc : Nat) : List Char → Option Nat
  | [] => some acc
  | c :: cs =>
    match digitVal c with
    | none => none
    | some d => parseDigitsAcc (acc * 10 + d) cs

/-- A calendar date as produced by Go's `time.Parse("2006-01-02", _)`:
the parsed `time.Time` values are midnights in UTC, so comparing the
instants is comparing the dates. -/
structure GoDate where
  year : Nat
  month : Nat
  day : Nat
deriving DecidableEq, Repr

/-- Go's zero `time.Time` is January 1 of year 1. -/
def zeroDate : GoDate := ⟨1, 1, 1⟩

/-- Gregorian leap-year rule, as used by Go's `time` package. -/
def isLeapYear (y : Nat) : Bool :=
  y % 4 == 0 && (y % 100 != 0 || y % 400 == 0)

/-- Number of days in a month, as validated by Go's `time.Parse`. -/
def daysInMonth (y m : Nat) : Nat :=
  if m = 2 then (if isLeapYear y then 29 else 28)
  else if m = 4 ∨ m = 6 ∨ m = 9 ∨ m = 11 then 30
  else 31

/-- Model of `time.Parse("2006-01-02", _)` at the character level:
exactly ten characters `YYYY-MM-DD` with in-range month and day,
otherwise an error (`none`). -/
def parseDateChars (cs : List Char) : Option GoDate :=
  match cs with
  | [y1, y2, y3, y4, dash1, m1, m2, dash2, d1, d2] =>
    if dash1 = '-' ∧ dash2 = '-' then do
      let a ← digitVal y1
      let b ← digitVal y2
      let c ← digitVal y3
      let e ← digitVal y4
      let f ← digitVal m1
      let g ← digitVal m2
      let h ← digitVal d1
      let i ← digitVal d2
      let y := ((a * 10 + b) * 10 + c) * 10 + e
      let mo := f * 10 + g
      let da := h * 10 + i
      if 1 ≤ mo ∧ mo ≤ 12 ∧ 1 ≤ da ∧ da ≤ daysInMonth y mo then
        some ⟨y, mo, da⟩
      else none
    else none
  | _ => none

/-- Model of `time.Parse("2006-01-02", s)`. -/
def parseDate (s : String) : Option GoDate := parseDateChars s.data

/-- Model of `t.Format("2006-01-02")` for dates with at most four year
digits (the only dates this program ever formats). -/
def formatDate (t : GoDate) : String :=
  String.mk (padDigits 4 t.year ++ '-' :: (padDigits 2 t.month ++ '-' :: padDigits 2 t.day))

/-- Model of `v.when, _ = time.Parse("2006-01-02", s)`: the error is
discarded, so a failed parse leaves the zero time. -/
def goParseDate (s : String) : GoDate := (parseDate s).getD zeroDate

/-- Model of `time.Time.Before` on parsed dates: chronological order,
which for midnight-UTC instants is lexicographic on (year, month, day). -/
def dateLtB (a b : GoDate) : Bool :=
  if a.year = b.year then
    (if a.month = b.month then decide (a.day < b.day) else decide (a.month < b.month))
  else decide (a.year < b.year)

/-- Unsigned part of the model of `strconv.ParseFloat`: digits, an
optional decimal point, and fraction digits, with at least one digit.
The value `ip.fr` is the rational `(ip * 10 ^ |fr| + fr) / 10 ^ |fr|`,
built with `mkRat` so that it evaluates inside the kernel. -/
def parseUnsignedChars (cs : List Char) : Option Rat :=
  let ip := cs.takeWhile isDigitChar
  match cs.dropWhile isDigitChar with
  | [] => if ip.isEmpty then none else some ((digitsVal 0 ip : Nat) : Rat)
  | '.' :: fr =>
    if fr.all isDigitChar && !(ip.isEmpty && fr.isEmpty) then
      some (mkRat (digitsVal 0 ip * 10 ^ fr.length + digitsVal 0 fr) (10 ^ fr.length))
    else none
  | _ => none

/-- Model of `strconv.ParseFloat(s, 64)` on its plain decimal forms
(optional sign, digits, optional fraction).  Exponent, hexadecimal,
infinity and NaN spellings are not modelled; the parsed value is kept
as an exact rational. -/
def parseFloatChars (cs : List Char) : Option Rat :=
  match cs with
  | [] => parseUnsignedChars []
  | c :: rest =>
    if c = '-' then (parseUnsignedChars rest).map (fun q => -q)
    else if c = '+' then parseUnsignedChars rest
    else parseUnsignedChars (c :: rest)

/-- String-level entry point of the `ParseFloat` model. -/
def goParseFloat (s : String) : Option Rat := parseFloatChars s.data

/-- The magnitude of `x` scaled by `10 ^ p` and rounded to the nearest
integer, halves up: `⌊|x| * 10 ^ p + 1 / 2⌋`, computed over `Nat` as
`(|num| * 10 ^ p * 2 + den) / (2 * den)` so that it evaluates inside
the kernel. -/
def scaledRound (p : Nat) (x : Rat) : Nat :=
  (x.num.natAbs * 10 ^ p * 2 + x.den) / (2 * x.den)

/-- Characters printed by Go's fixed-point float formatting with `prec`
fractional digits (`fmt.Sprintf "%.04f"` when `prec = 4`,
`strconv.FormatFloat _ 'f' prec 64` in general): an optional minus sign
(present whenever the value is negative), the integer digits, a point,
and exactly `prec` fraction digits, with the magnitude correctly
rounded.  A `float64` is a dyadic rational, so it is never an exact tie
at these decimal places and the half-up rule of `scaledRound` agrees
with Go's correctly rounded output. -/
def fmtFixedChars (prec : Nat) (x : Rat) : List Char :=
  let scaled : Nat := scaledRound prec x
  (if x.num < 0 then ['-'] else []) ++
    natDigits (scaled / 10 ^ prec) ++ '.' :: padDigits prec (scaled % 10 ^ prec)

/-- Model of `strconv.FormatFloat(x, 'f', prec, 64)` and of
`fmt.Sprintf("%.04f", x)` (for `prec = 4`). -/
def fmtFloatFixed (prec : Nat) (x : Rat) : String := String.mk (fmtFixedChars prec x)

/-- The exact value denoted by `fmtFloatFixed prec x`: the input rounded
to `prec` decimal places (signed). -/
def roundDec (prec : Nat) (x : Rat) : Rat :=
  Rat.divInt
    (if x.num < 0 then -((scaledRound prec x : Nat) : Int) else ((scaledRound prec x : Nat) : Int))
    ((10 ^ prec : Nat) : Int)

/-- The serializer's coordinate transformation
`float64(int(10000*x)) / 10000` from the `MarshalJSON` methods in
`src/unnamed/part_000`; Go's `int` conversion truncates toward zero.
As a rational, `10000 * x` is `(10000 * x.num) / x.den`, so the
truncation is `Int.tdiv (10000 * x.num) x.den`. -/
def trunc4 (x : Rat) : Rat := Rat.divInt (Int.tdiv (10000 * x.num) (x.den : Int)) 10000

/-- One travel event, the `visit` struct.  The first program's `visit`
has no `purpose` field; it is modelled with `purpose = ""`. -/
structure Visit where
  address : String
  when : GoDate
  purpose : String
  lat : Rat
  lng : Rat
deriving DecidableEq, Repr

/-- The `location` object of a geocoding result. -/
structure GeoLocation where
  lat : Rat
  lng : Rat
deriving DecidableEq, Repr

/-- One element of the geocoding response's `results` array. -/
structure GeoResult where
  formattedAddress : String
  location : GeoLocation
deriving DecidableEq, Repr

/-- The decoded geocoding response (the `result` struct). -/
structure GeoResponse where
  results : List GeoResult
deriving DecidableEq, Repr

/-- What becomes of the response body in `lookup`
(`src/unnamed/part_000`, second program): reading it can fail,
unmarshalling it can fail, or it decodes to a `GeoResponse`. -/
inductive BodyOutcome where
  | unreadable
  | unparsed
  | parsed (res : GeoResponse)
deriving DecidableEq, Repr

/-- Outcome of the `http.Get` in `lookup`: a transport error, or a
response with a status code and a body. -/
inductive FetchOutcome where
  | transportError
  | response (statusCode : Nat) (body : BodyOutcome)
deriving DecidableEq, Repr

/-- Model of `lookup` (`src/unnamed/part_000`, second program): every
failure branch returns `(0, 0, search)`; on success the first result's
location and formatted address are returned. -/
def lookup (search : String) (f : FetchOutcome) : Rat × Rat × String :=
  match f with
  | .transportError => (0, 0, search)
  | .response statusCode body =>
    if statusCode > 299 then (0, 0, search)
    else
      match body with
      | .unreadable => (0, 0, search)
      | .unparsed => (0, 0, search)
      | .parsed res =>
        match res.results with
        | [] => (0, 0, search)
        | r :: _ => (r.location.lat, r.location.lng, r.formattedAddress)

/-- The failure modes of `lookup`: transport error, non-2xx status,
unreadable body, unparseable body, or zero results. -/
def lookupFails (f : FetchOutcome) : Bool :=
  match f with
  | .transportError => true
  | .response statusCode body =>
    decide (statusCode > 299) ||
      match body with
      | .unreadable => true
      | .unparsed => true
      | .parsed res => res.results.isEmpty

/-- What becomes of the response body in `loopkup`
(`src/resolve/resolve.go`): the JSON decoder either fails or yields a
`GeoResponse`.  `loopkup` never inspects the status code. -/
inductive DecodeOutcome where
  | failed
  | decoded (res : GeoResponse)
deriving DecidableEq, Repr

/-- Outcome of the `http.Get` in `loopkup`. -/
inductive FetchOutcome2 where
  | transportError
  | response (body : DecodeOutcome)
deriving DecidableEq, Repr

/-- Model of `loopkup` (`src/resolve/resolve.go`): every failure branch
returns `(0, 0, "")` — the empty string, not the searched address. -/
def loopkup (search : String) (f : FetchOutcome2) : Rat × Rat × String :=
  match f with
  | .transportError => (0, 0, "")
  | .response .failed => (0, 0, "")
  | .response (.decoded res) =>
    match res.results with
    | [] => (0, 0, "")
    | r :: _ => (r.location.lat, r.location.lng, r.formattedAddress)

/-- The failure modes of `loopkup`: transport error, undecodable body,
or zero results. -/
def loopkupFails (f : FetchOutcome2) : Bool :=
  match f with
  | .transportError => true
  | .response .failed => true
  | .response (.decoded res) => res.results.isEmpty

/-- Model of `visitFromStrings` of the first program in
`src/unnamed/part_000`: exactly 5 fields, trimmed; parse failures leave
zero values; no purpose field and no lookup. -/
def visitFromStringsV1 (fs : List String) : Option Visit :=
  if fs.length = 5 then
    some { address := goTrim (fs.getD 2 "")
           when := goParseDate (goTrim (fs.getD 0 ""))
           purpose := ""
           lat := (goParseFloat (goTrim (fs.getD 3 ""))).getD 0
           lng := (goParseFloat (goTrim (fs.getD 4 ""))).getD 0 }
  else none

/-- Model of `visitFromStrings` of the second program in
`src/unnamed/part_000`: exactly 5 fields, trimmed; parse failures leave
zero values; when both coordinates are exactly 0 the address is sent to
`lookup`, whose network behaviour is supplied as `oracle`. -/
def visitFromStringsV2 (oracle : String → FetchOutcome) (fs : List String) : Option Visit :=
  if fs.length = 5 then
    let when := goParseDate (goTrim (fs.getD 0 ""))
    let purpose := goTrim (fs.getD 1 "")
    let address := goTrim (fs.getD 2 "")
    let lat := (goParseFloat (goTrim (fs.getD 3 ""))).getD 0
    let lng := (goParseFloat (goTrim (fs.getD 4 ""))).getD 0
    if lat = 0 ∧ lng = 0 then
      let r := lookup address (oracle address)
      some { address := r.2.2, when := when, purpose := purpose, lat := r.1, lng := r.2.1 }
    else
      some { address := address, when := when, purpose := purpose, lat := lat, lng := lng }
  else none

/-- Model of `visitFromStrings` of `src/resolve/resolve.go`: exactly 5
fields, no trimming; when both coordinates are exactly 0 the address is
sent to `loopkup`. -/
def visitFromStringsResolve (oracle : String → FetchOutcome2) (fs : List String) : Option Visit :=
  if fs.length = 5 then
    let when := goParseDate (fs.getD 0 "")
    let purpose := fs.getD 1 ""
    let address := fs.getD 2 ""
    let lat := (goParseFloat (fs.getD 3 "")).getD 0
    let lng := (goParseFloat (fs.getD 4 "")).getD 0
    if lat = 0 ∧ lng = 0 then
      let r := loopkup address (oracle address)
      some { address := r.2.2, when := when, purpose := purpose, lat := r.1, lng := r.2.1 }
    else
      some { address := address, when := when, purpose := purpose, lat := lat, lng := lng }
  else none

/-- Model of `(*visit).strings` in `src/unnamed/part_000` (second
program): date, purpose, address, and the coordinates formatted with 4
fixed decimals. -/
def visitStrings (v : Visit) : List String :=
  [formatDate v.when, v.purpose, v.address, fmtFloatFixed 4 v.lat, fmtFloatFixed 4 v.lng]

/-- Model of `(*visit).strings` in `src/resolve/resolve.go`: the same
with 6 fixed decimals. -/
def visitStringsResolve (v : Visit) : List String :=
  [formatDate v.when, v.purpose, v.address, fmtFloatFixed 6 v.lat, fmtFloatFixed 6 v.lng]

/-- The 12-entry marker color palette (`colors`). -/
def colors : List String :=
  ["#a6cee3", "#1f78b4", "#b2df8a", "#33a02c", "#fb9a99", "#e31a1c",
   "#fdbf6f", "#ff7f00", "#cab2d6", "#6a3d9a", "#ffff99", "#b15928"]

/-- The color assigner's process state: the `yearToColor` map (kept here
as an association list in assignment order) and the `nextColor` cursor. -/
structure ColorState where
  assigned : List (Nat × String)
  nextColor : Nat
deriving DecidableEq, Repr

/-- The state at program start: empty map, cursor 0. -/
def initialColorState : ColorState := ⟨[], 0⟩

/-- Model of `colorForYear`: a remembered year returns its assigned
color and leaves the state unchanged; a new year takes
`colors[nextColor]`, advances the cursor modulo the palette size and
records the assignment. -/
def colorForYear (s : ColorState) (t : GoDate) : String × ColorState :=
  match s.assigned.lookup t.year with
  | some c => (c, s)
  | none =>
    let c := colors.getD s.nextColor ""
    (c, ⟨s.assigned ++ [(t.year, c)], (s.nextColor + 1) % colors.length⟩)

/-- Run `colorForYear` over a sequence of dates, as the serializer does
once per visit. -/
def colorRun (s : ColorState) : List GoDate → ColorState
  | [] => s
  | t :: ts => colorRun (colorForYear s t).2 ts

/-- The distinct years of a date sequence in first-seen order. -/
def firstSeenYears (ts : List GoDate) : List Nat :=
  ts.foldl (fun acc t => if t.year ∈ acc then acc else acc ++ [t.year]) []

/-- Palette entry for the (i+1)-th distinct year. -/
def palette (i : Nat) : String := colors.getD (i % 12) ""

/-- The association list the color assigner is expected to have built
after the given distinct years, in order, starting at palette index `i`. -/
def assignedFor (ys : List Nat) (i : Nat) : List (Nat × String) :=
  match ys with
  | [] => []
  | y :: rest => (y, palette i) :: assignedFor rest (i + 1)

/-- One GeoJSON `Feature` as built by `MarshalJSON` in
`src/unnamed/part_000` (second program): the `coordinates` array is
`[lngOut, latOut]`, and the properties carry purpose, color, date and
address. -/
structure Feature where
  lngOut : Rat
  latOut : Rat
  markerSymbol : String
  markerColor : String
  date : String
  name : String
deriving DecidableEq, Repr

/-- Model of `(*visit).MarshalJSON` in `src/unnamed/part_000` (second
program): coordinates truncated through `float64(int(10000*x))/10000`,
color from the stateful assigner. -/
def marshalVisit (s : ColorState) (v : Visit) : Feature × ColorState :=
  let r := colorForYear s v.when
  ({ lngOut := trunc4 v.lng, latOut := trunc4 v.lat, markerSymbol := v.purpose,
     markerColor := r.1, date := formatDate v.when, name := v.address }, r.2)

/-- Model of `(*visit).MarshalJSON` in `src/resolve/resolve.go`: the
coordinates are emitted unmodified — no truncation. -/
def marshalVisitResolve (s : ColorState) (v : Visit) : Feature × ColorState :=
  let r := colorForYear s v.when
  ({ lngOut := v.lng, latOut := v.lat, markerSymbol := v.purpose,
     markerColor := r.1, date := formatDate v.when, name := v.address }, r.2)

/-- Lexicographic order on character lists by code point; Go compares
strings byte-wise, and UTF-8 byte order agrees with code-point order. -/
def strLtB : List Char → List Char → Bool
  | [], [] => false
  | [], _ :: _ => true
  | _ :: _, [] => false
  | a :: as, b :: bs =>
    if a < b then true else if b < a then false else strLtB as bs

/-- Model of `visitList.Less` (`src/unnamed/part_000` second program and
`src/resolve/resolve.go`): date order first, address order on equal
dates. -/
def visitLessB (a b : Visit) : Bool :=
  if a.when = b.when then strLtB a.address.data b.address.data
  else dateLtB a.when b.when

/-- The total preorder induced by `visitList.Less`: `a` may precede `b`
exactly when `b` is not strictly less than `a`. -/
def visitLE (a b : Visit) : Prop := visitLessB b a = false

instance : DecidableRel visitLE := fun a b => by
  unfold visitLE; infer_instance

/-- Model of `sort.Sort(visitList(visits))`: a sort whose output is
ordered by `visitList.Less`, which is all `sort.Sort` guarantees. -/
def sortVisits (vs : List Visit) : List Visit := List.insertionSort visitLE vs

/-- The date-only preorder of the first program's
`slices.SortFunc(visits, func(a, b) int { return a.when.Compare(b.when) })`. -/
def dateLE (a b : Visit) : Prop := dateLtB b.when a.when = false

instance : DecidableRel dateLE := fun a b => by
  unfold dateLE; infer_instance

/-- Model of the first program's sort: ordered by date only.  Go's
`slices.SortFunc` leaves equal-date elements in an unspecified order;
like Go's small-slice insertion sort, this model swaps nothing when the
comparison reports equality. -/
def sortVisitsV1 (vs : List Visit) : List Visit := List.insertionSort dateLE vs

/-- The first program's dedup key
`fmt.Sprintf("%.04f,%.04f", visit.lat, visit.lat)` — the latitude twice,
exactly as in the source. -/
def dedupKey (v : Visit) : String :=
  fmtFloatFixed 4 v.lat ++ "," ++ fmtFloatFixed 4 v.lat

/-- The first program's dedup loop over already-parsed visits: a visit
whose key was already seen is skipped, otherwise it is kept and its key
remembered. -/
def dedupLoop (seen : List String) : List Visit → List Visit
  | [] => []
  | v :: vs =>
    if dedupKey v ∈ seen then dedupLoop seen vs
    else v :: dedupLoop (dedupKey v :: seen) vs

/-- The first program's deduplication, starting from no seen keys. -/
def dedupVisits (vs : List Visit) : List Visit := dedupLoop [] vs

/-- `encoding/csv` with the default `FieldsPerRecord = 0`: the first
record read fixes the expected field count, and `Read` returns
`ErrFieldCount` for any later record with a different count.  Both
programs' read loops stop at the first error of any kind (they do not
distinguish `ErrFieldCount` from end-of-file), so the records the
parser ever sees are the first record followed by the longest prefix of
subsequent records with the same field count.  `csvSameCount` is that
prefix and `csvRead` the whole delivered sequence. -/
def csvSameCount (expected : Nat) : List (List String) → List (List String)
  | [] => []
  | r :: rs => if r.length = expected then r :: csvSameCount expected rs else []

/-- The records the CSV reader delivers to either read loop: the first
record (whatever its width), then records of the same width up to the
first mismatch. -/
def csvRead : List (List String) → List (List String)
  | [] => []
  | r :: rs => r :: csvSameCount r.length rs

/-- The first program's read loop (`src/unnamed/part_000` lines 78-90)
over the rows the CSV reader delivers: each row is parsed and
deduplicated.  `visitFromStrings` returns nil for a row without exactly
5 fields and the loop dereferences the result unconditionally
(`visit.lat`), so such a row panics; the panic is modelled by `none`. -/
def mainLoopV1Go (seen : List String) : List (List String) → Option (List Visit)
  | [] => some []
  | r :: rs =>
    match visitFromStringsV1 r with
    | none => none
    | some v =>
      if dedupKey v ∈ seen then mainLoopV1Go seen rs
      else (mainLoopV1Go (dedupKey v :: seen) rs).map (v :: ·)

/-- The first program's read loop from the initial empty key set, over
the rows the reader delivers from the file's records. -/
def mainLoopV1 (rows : List (List String)) : Option (List Visit) :=
  mainLoopV1Go [] (csvRead rows)

/-- Collapse the parsed visits of the second program's read loop
(`src/unnamed/part_000` lines 253-262), which appends
`visitFromStrings(in)` without a nil check: if any row parsed to nil,
the later sort/rewrite dereferences the nil pointer and panics, which is
modelled by `none`. -/
def seqVisits : List (Option Visit) → Option (List Visit)
  | [] => some []
  | none :: _ => none
  | some v :: rest => (seqVisits rest).map (v :: ·)

/-- The second program's pipeline up to the CSV rewrite: parse every
row the reader delivers, sort, and render each visit back to a row.  A
short first record reaches the parser, yields nil, and makes the run
panic (`none`); a mismatched-count later record stops the read loop
instead, so everything after it is dropped. -/
def pipelineV2 (oracle : String → FetchOutcome) (rows : List (List String)) :
    Option (List (List String)) :=
  match seqVisits ((csvRead rows).map (visitFromStringsV2 oracle)) with
  | none => none
  | some vs => some ((sortVisits vs).map visitStrings)

/-- The distinct purposes of the sorted visits, as collected by the
second program's `purposes` map (map iteration order abstracted as
first-seen order). -/
def purposesOf (vs : List Visit) : List String :=
  vs.foldl (fun acc v => if v.purpose ∈ acc then acc else acc ++ [v.purpose]) []

/-- Model of `filterByPurpose`: the loop keeps, in order, the visits
whose purpose equals the given one exactly. -/
def filterByPurpose (vs : List Visit) (purpose : String) : List Visit :=
  vs.foldl (fun res v => if v.purpose = purpose then res ++ [v] else res) []

/-! Claim C10. -/

/-- The dedup loop only consults membership of the seen-key set, so
set-equal seen lists yield the same result. -/
theorem dedupLoop_congr (vs : List Visit) :
    ∀ (seen seen' : List String), (∀ k, k ∈ seen ↔ k ∈ seen') →
      dedupLoop seen vs = dedupLoop seen' vs := by
  induction vs with
  | nil => intro seen seen' _; rfl
  | cons v vs ih =>
    intro seen seen' h
    by_cases hv : dedupKey v ∈ seen
    · simp only [dedupLoop]
      rw [if_pos hv, if_pos ((h _).mp hv)]
      exact ih seen seen' h
    · simp only [dedupLoop]
      rw [if_neg hv, if_neg (fun hh => hv ((h _).mpr hh))]
      refine congrArg (v :: ·) ?_
      refine ih _ _ ?_
      intro k
      simp only [List.mem_cons]
      rw [h k]

/-- Remembering one more key is the same as pre-filtering every visit
with that key out of the remaining input. -/
theorem dedupLoop_cons_seen (vs : List Visit) :
    ∀ (k : String) (seen : List String),
      dedupLoop (k :: seen) vs =
        dedupLoop seen (vs.filter (fun u => !(dedupKey u == k))) := by
  induction vs with
  | nil => intro k seen; rfl
  | cons v vs ih =>
    intro k seen
    by_cases hvk : dedupKey v = k
    · have hmem : dedupKey v ∈ k :: seen := by simp [hvk]
      have hfilter : (!(dedupKey v == k)) = false := by simp [hvk]
      simp only [dedupLoop, List.filter_cons, hfilter]
      rw [if_pos hmem]
      exact ih k seen
    · have hfilter : (!(dedupKey v == k)) = true := by simp [hvk]
      by_cases hv : dedupKey v ∈ seen
      · have hmem : dedupKey v ∈ k :: seen := List.mem_cons_of_mem k hv
        simp only [dedupLoop, List.filter_cons, hfilter]
        rw [if_pos hmem, if_pos hv]
        exact ih k seen
      · have hmem : dedupKey v ∉ k :: seen := by
          intro hh
          rcases List.mem_cons.mp hh with hh | hh
          · exact hvk hh
          · exact hv hh
        simp only [dedupLoop, List.filter_cons, hfilter]
        rw [if_neg hmem, if_neg hv]
        refine congrArg (v :: ·) ?_
        rw [dedupLoop_congr vs (dedupKey v :: k :: seen) (k :: dedupKey v :: seen)
          (by intro x; simp only [List.mem_cons]; tauto)]
        exact ih k (dedupKey v :: seen)

/-- The first program's dedup keeps the head and recursively drops
every later visit whose key (the rounded latitude, twice) matches. -/
theorem dedupVisits_cons (v : Visit) (vs : List Visit) :
    dedupVisits (v :: vs) =
      v :: dedupVisits (vs.filter (fun u => !(dedupKey u == dedupKey v))) := by
  unfold dedupVisits
  simp only [dedupLoop]
  rw [if_neg (List.not_mem_nil _)]
  exact congrArg (v :: ·) (dedupLoop_cons_seen vs (dedupKey v) [])

/-- Among the visits with any fixed dedup key, exactly the first-seen
one survives deduplication. -/
theorem dedupVisits_filter_key_aux :
    ∀ (n : Nat) (vs : List Visit), vs.length ≤ n → ∀ k,
      (dedupVisits vs).filter (fun u => dedupKey u == k) =
        (vs.filter (fun u => dedupKey u == k)).take 1 := by
  intro n
  induction n with
  | zero =>
    intro vs hlen k
    have : vs = [] := List.eq_nil_of_length_eq_zero (Nat.le_zero.mp hlen)
    subst this
    rfl
  | succ n ih =>
    intro vs hlen k
    cases vs with
    | nil => rfl
    | cons v vs =>
      rw [dedupVisits_cons]
      by_cases hk : dedupKey v = k
      · subst hk
        have hnil : (dedupVisits (vs.filter (fun u => !(dedupKey u == dedupKey v)))).filter
            (fun u => dedupKey u == dedupKey v) = [] := by
          rw [ih _ (le_trans (List.length_filter_le _ _) (Nat.lt_succ_iff.mp hlen)) (dedupKey v)]
          have hempty : (vs.filter (fun u => !(dedupKey u == dedupKey v))).filter
              (fun u => dedupKey u == dedupKey v) = [] := by
            rw [List.filter_filter]
            refine List.filter_eq_nil_iff.mpr ?_
            intro u _
            by_cases hu : dedupKey u = dedupKey v
            · simp [hu]
            · simp [beq_eq_false_iff_ne.mpr hu]
          rw [hempty]
          rfl
        rw [List.filter_cons, List.filter_cons]
        simp only [beq_self_eq_true, if_true]
        rw [hnil]
        rfl
      · have hstep : (dedupVisits (vs.filter (fun u => !(dedupKey u == dedupKey v)))).filter
            (fun u => dedupKey u == k) =
            ((vs.filter (fun u => !(dedupKey u == dedupKey v))).filter
              (fun u => dedupKey u == k)).take 1 :=
          ih _ (le_trans (List.length_filter_le _ _) (Nat.lt_succ_iff.mp hlen)) k
        have hcomm : (vs.filter (fun u => !(dedupKey u == dedupKey v))).filter
            (fun u => dedupKey u == k) = vs.filter (fun u => dedupKey u == k) := by
          rw [List.filter_filter]
          refine List.filter_congr ?_
          intro u _
          by_cases hu : dedupKey u = k
          · have hne2 : (k == dedupKey v) = false :=
              beq_eq_false_iff_ne.mpr (fun hh => hk hh.symm)
            simp [hu, hne2]
          · simp [beq_eq_false_iff_ne.mpr hu]
        have hbeq : (dedupKey v == k) = false := beq_eq_false_iff_ne.mpr hk
        calc (v :: dedupVisits (vs.filter (fun u => !(dedupKey u == dedupKey v)))).filter
              (fun u => dedupKey u == k)
            = (dedupVisits (vs.filter (fun u => !(dedupKey u == dedupKey v)))).filter
                (fun u => dedupKey u == k) := by
              rw [List.filter_cons]; simp [hbeq]
          _ = (vs.filter (fun u => dedupKey u == k)).take 1 := by rw [hstep, hcomm]
          _ = ((v :: vs).filter (fun u => dedupKey u == k)).take 1 := by
              rw [List.filter_cons]; simp [hbeq]

/-- C10 (amended): the dedup key is the 4-decimal-formatted latitude
twice, so it ignores the longitude entirely; the head of the list
always survives and every later visit with the same rounded latitude is
dropped; for each key only the first-seen visit survives.  A row whose
latitude field fails to parse yields a visit with latitude 0 and hence
the key "0.0000,0.0000", so at most one such visit survives — the first
visit whose latitude rounds to 0.0000 (which need not be a parse-fail
visit, see the counterexample). -/
theorem c10_dedup_latitude_only (v : Visit) (vs : List Visit) (x : Rat) (k : String) :
    dedupKey { v with lng := x } = dedupKey v ∧
    dedupKey v = fmtFloatFixed 4 v.lat ++ "," ++ fmtFloatFixed 4 v.lat ∧
    dedupVisits (v :: vs) =
      v :: dedupVisits (vs.filter (fun u => !(dedupKey u == dedupKey v))) ∧
    (dedupVisits vs).filter (fun u => dedupKey u == k) =
      (vs.filter (fun u => dedupKey u == k)).take 1 ∧
    (∀ fs : List String, fs.length = 5 → goParseFloat (goTrim (fs.getD 3 "")) = none →
      ∃ u, visitFromStringsV1 fs = some u ∧ u.lat = 0 ∧
        dedupKey u = fmtFloatFixed 4 0 ++ "," ++ fmtFloatFixed 4 0) := by
  refine ⟨rfl, rfl, dedupVisits_cons v vs,
    dedupVisits_filter_key_aux vs.length vs le_rfl k, ?_⟩
  intro fs h5 hfail
  have hfail2 : goParseFloat (goTrim (fs[3]?.getD "")) = none := by
    rw [← List.getD_eq_getElem?_getD]
    exact hfail
  unfold visitFromStringsV1
  rw [if_pos h5]
  refine ⟨_, rfl, ?_, ?_⟩
  · simp [hfail2]
  · unfold dedupKey
    simp [hfail2]

/-- Witness for C10 at a concrete list and a parse-fail row. -/
theorem c10_witness :
    dedupVisits
        [{ address := "A", when := ⟨2020, 1, 1⟩, purpose := "", lat := 40, lng := -75 },
         { address := "B", when := ⟨2020, 1, 2⟩, purpose := "", lat := 40, lng := 10 }] =
      { address := "A", when := ⟨2020, 1, 1⟩, purpose := "", lat := 40, lng := -75 } ::
        dedupVisits
          (List.filter
            (fun u => !(dedupKey u ==
              dedupKey { address := "A", when := ⟨2020, 1, 1⟩, purpose := "", lat := 40, lng := -75 }))
            [{ address := "B", when := ⟨2020, 1, 2⟩, purpose := "", lat := 40, lng := 10 }]) ∧
      (["2020-01-02", "b", "Y", "x", "6"] : List String).length = 5 ∧
      goParseFloat (goTrim (["2020-01-02", "b", "Y", "x", "6"].getD 3 "")) = none ∧
      ∃ u, visitFromStringsV1 ["2020-01-02", "b", "Y", "x", "6"] = some u ∧ u.lat = 0 ∧
        dedupKey u = fmtFloatFixed 4 0 ++ "," ++ fmtFloatFixed 4 0 :=
  ⟨(c10_dedup_latitude_only
      { address := "A", when := ⟨2020, 1, 1⟩, purpose := "", lat := 40, lng := -75 }
      [{ address := "B", when := ⟨2020, 1, 2⟩, purpose := "", lat := 40, lng := 10 }]
      0 "").2.2.1,
   by decide, by decide,
   (c10_dedup_latitude_only
      { address := "A", when := ⟨2020, 1, 1⟩, purpose := "", lat := 40, lng := -75 }
      [] 0 "").2.2.2.2 ["2020-01-02", "b", "Y", "x", "6"] (by decide) (by decide)⟩

/-- C10 counterexample to the claim as stated: with a first row whose
latitude "0.0000" parses to 0 and a second row whose latitude "x" fails
to parse (defaulting to 0), the second row's visit is the FIRST (and
only) visit whose latitude field fails to parse, yet it does not
survive deduplication — the claim's "only the first one survives" fails
because an earlier successfully-parsed visit already used the key. -/
theorem c10_counterexample_first_parsefail_dropped :
    goParseFloat (goTrim (["2020-01-01", "a", "X", "0.0000", "5"].getD 3 "")) = some 0 ∧
    goParseFloat (goTrim (["2020-01-02", "b", "Y", "x", "6"].getD 3 "")) = none ∧
    mainLoopV1 [["2020-01-01", "a", "X", "0.0000", "5"], ["2020-01-02", "b", "Y", "x", "6"]] =
      some [{ address := "X", when := ⟨2020, 1, 1⟩, purpose := "", lat := 0, lng := 5 }] ∧
    ({ address := "Y", when := ⟨2020, 1, 2⟩, purpose := "", lat := 0, lng := 6 } : Visit) ∉
      [{ address := "X", when := ⟨2020, 1, 1⟩, purpose := "", lat := 0, lng := 5 }] := by
  refine ⟨by decide, by decide, by decide, by decide⟩

/-! Claim C6. -/

/-- For a nonnegative rational, the serializer's scaled integer
truncation is the floor of the value scaled by 10000. -/
theorem trunc4_nonneg_eq (x : Rat) (hx : 0 ≤ x) :
    trunc4 x = ((⌊x * 10000⌋ : Int) : Rat) / 10000 := by
  unfold trunc4
  have hnum : 0 ≤ x.num := Rat.num_nonneg.mpr hx
  have h1 : Int.tdiv (10000 * x.num) (x.den : Int) = (10000 * x.num) / (x.den : Int) :=
    Int.tdiv_eq_ediv (by positivity) (by positivity)
  have h2 : ⌊((10000 * x.num : Int) : Rat) / ((x.den : Nat) : Rat)⌋ =
      (10000 * x.num) / (x.den : Int) :=
    Rat.floor_intCast_div_natCast (10000 * x.num) x.den
  have h3 : ((10000 * x.num : Int) : Rat) / ((x.den : Nat) : Rat) = x * 10000 := by
    calc ((10000 * x.num : Int) : Rat) / ((x.den : Nat) : Rat)
        = 10000 * ((x.num : Rat) / (x.den : Rat)) := by push_cast; ring
      _ = 10000 * x := by rw [Rat.num_div_den]
      _ = x * 10000 := mul_comm _ _
  rw [Rat.divInt_eq_div, h1, ← h2, h3]
  norm_num

/-- The serializer's truncation is odd, matching Go's toward-zero `int`
conversion. -/
theorem trunc4_neg_eq (x : Rat) : trunc4 (-x) = -trunc4 x := by
  unfold trunc4
  rw [Rat.neg_num, Rat.neg_den]
  rw [show 10000 * -x.num = -(10000 * x.num) from by ring]
  rw [Int.neg_tdiv]
  rw [← Rat.neg_divInt]

/-- The truncated coordinate never exceeds the original in magnitude
and differs from it by less than one unit in the fourth decimal
place. -/
theorem trunc4_bounds (x : Rat) : |trunc4 x| ≤ |x| ∧ |x| < |trunc4 x| + 1 / 10000 := by
  rcases le_or_lt 0 x with hx | hx
  · have h := trunc4_nonneg_eq x hx
    have hfl : ((⌊x * 10000⌋ : Int) : Rat) ≤ x * 10000 := Int.floor_le _
    have hfu : x * 10000 < ((⌊x * 10000⌋ : Int) : Rat) + 1 := Int.lt_floor_add_one _
    have h0 : (0 : Int) ≤ ⌊x * 10000⌋ :=
      Int.floor_nonneg.mpr (by positivity)
    have h0' : (0 : Rat) ≤ ((⌊x * 10000⌋ : Int) : Rat) := by exact_mod_cast h0
    have htr : 0 ≤ trunc4 x := by
      rw [h]
      positivity
    rw [abs_of_nonneg hx, abs_of_nonneg htr, h]
    constructor
    · linarith
    · linarith
  · have hx' : 0 ≤ -x := by linarith
    have h := trunc4_nonneg_eq (-x) hx'
    have hfl : ((⌊(-x) * 10000⌋ : Int) : Rat) ≤ (-x) * 10000 := Int.floor_le _
    have hfu : (-x) * 10000 < ((⌊(-x) * 10000⌋ : Int) : Rat) + 1 := Int.lt_floor_add_one _
    have h0 : (0 : Int) ≤ ⌊(-x) * 10000⌋ :=
      Int.floor_nonneg.mpr (by positivity)
    have h0' : (0 : Rat) ≤ ((⌊(-x) * 10000⌋ : Int) : Rat) := by exact_mod_cast h0
    have htr : trunc4 x = -(((⌊(-x) * 10000⌋ : Int) : Rat) / 10000) := by
      have := trunc4_neg_eq x
      rw [h] at this
      linarith
    rw [abs_of_neg hx, htr, abs_neg, abs_of_nonneg (by positivity)]
    constructor
    · linarith
    · linarith

/-- C6 (amended): the `part_000` serializers emit each coordinate
truncated toward zero to 4 decimal places via
`float64(int(10000*x))/10000` — the emitted value is `⌊x*10000⌋/10000`
for nonnegative `x` and the mirror image for negative `x`, within
1/10000 of the original and never larger in magnitude; in particular
12.34567 serializes as 12.3456, not 12.3457.  (The `resolve.go`
serializer emits the coordinates untruncated; see the
counterexample.) -/
theorem c6_truncation (s : ColorState) (v : Visit) (x : Rat) :
    (marshalVisit s v).1.lngOut = trunc4 v.lng ∧
    (marshalVisit s v).1.latOut = trunc4 v.lat ∧
    (0 ≤ x → trunc4 x = ((⌊x * 10000⌋ : Int) : Rat) / 10000) ∧
    (x < 0 → trunc4 x = -(((⌊(-x) * 10000⌋ : Int) : Rat) / 10000)) ∧
    |trunc4 x| ≤ |x| ∧
    |x| < |trunc4 x| + 1 / 10000 ∧
    trunc4 (mkRat 1234567 100000) = mkRat 123456 10000 ∧
    mkRat 123456 10000 ≠ mkRat 123457 10000 := by
  refine ⟨rfl, rfl, fun hx => trunc4_nonneg_eq x hx, ?_, (trunc4_bounds x).1,
    (trunc4_bounds x).2, by decide, by decide⟩
  intro hx
  have hx' : 0 ≤ -x := by linarith
  have h := trunc4_nonneg_eq (-x) hx'
  have := trunc4_neg_eq x
  rw [h] at this
  linarith

/-- Witness for C6 at the spec's example longitude 12.34567. -/
theorem c6_witness :
    (0 : Rat) ≤ mkRat 1234567 100000 ∧
      (marshalVisit initialColorState
          { address := "A", when := ⟨2020, 1, 1⟩, purpose := "", lat := 0,
            lng := mkRat 1234567 100000 }).1.lngOut =
        trunc4 (mkRat 1234567 100000) ∧
      trunc4 (mkRat 1234567 100000) = mkRat 123456 10000 :=
  ⟨by decide,
   (c6_truncation initialColorState
      { address := "A", when := ⟨2020, 1, 1⟩, purpose := "", lat := 0,
        lng := mkRat 1234567 100000 } (mkRat 1234567 100000)).1,
   (c6_truncation initialColorState
      { address := "A", when := ⟨2020, 1, 1⟩, purpose := "", lat := 0,
        lng := mkRat 1234567 100000 } (mkRat 1234567 100000)).2.2.2.2.2.2.1⟩

/-- C6 counterexample: the `resolve.go` serializer emits the longitude
12.34567 unmodified — not truncated to 12.3456 — so the claim fails for
that cited serializer. -/
theorem c6_counterexample_resolve_no_truncation :
    (marshalVisitResolve initialColorState
        { address := "A", when := ⟨2020, 1, 1⟩, purpose := "", lat := 0,
          lng := mkRat 1234567 100000 }).1.lngOut = mkRat 1234567 100000 ∧
    mkRat 1234567 100000 ≠ trunc4 (mkRat 1234567 100000) := by
  constructor
  · rfl
  · decide

/-- A network oracle on which every request fails at transport level. -/
def noNetwork : String → FetchOutcome := fun _ => .transportError

/-- A network oracle whose every response resolves to a fixed corrected
address at coordinates (3/2, 5/2). -/
def okOracle : String → FetchOutcome :=
  fun _ => .response 200 (.parsed ⟨[⟨"Other", ⟨mkRat 3 2, mkRat 5 2⟩⟩]⟩)

/-! General lemmas about the embedded operations. -/

/-- Every failure mode of `loopkup` yields the sentinel with an empty
address. -/
theorem loopkup_of_fails (search : String) (f : FetchOutcome2) (h : loopkupFails f = true) :
    loopkup search f = (0, 0, "") := by
  cases f with
  | transportError => rfl
  | response body =>
    cases body with
    | failed => rfl
    | decoded res =>
      simp only [loopkupFails, List.isEmpty_iff] at h
      simp [loopkup, h]

/-! Claim C3. -/

/-- C3: for every address and every resolver failure mode of `lookup`
(transport error, non-2xx HTTP status, unreadable body, unparseable
body, zero results), the geocode lookup returns the sentinel
coordinates (0,0) together with the original input address; no failure
escapes the function. -/
theorem c3_lookup_failure_returns_sentinel_and_address (search : String) (f : FetchOutcome)
    (h : lookupFails f = true) : lookup search f = (0, 0, search) := by
  cases f with
  | transportError => rfl
  | response statusCode body =>
    simp only [lookup]
    by_cases hs : statusCode > 299
    · simp [hs]
    · rw [if_neg hs]
      cases body with
      | unreadable => rfl
      | unparsed => rfl
      | parsed res =>
        simp only [lookupFails, Bool.or_eq_true, decide_eq_true_eq, List.isEmpty_iff] at h
        rcases h with h | h
        · exact absurd h hs
        · simp [h]

/-- Witness for C3 at a concrete failing fetch. -/
theorem c3_witness :
    lookupFails .transportError = true ∧
      lookup "1 Main St" .transportError = (0, 0, "1 Main St") :=
  ⟨by decide, c3_lookup_failure_returns_sentinel_and_address "1 Main St" .transportError (by decide)⟩

/-! Claim C9. -/

/-- C9: in the `resolve.go` variant, for every row whose parsed
coordinates are exactly (0,0), any failure of the geocode `loopkup`
(transport error, undecodable body, or zero results) leaves a visit
whose address is the empty string — the original address text is lost —
and whose coordinates remain (0,0). -/
theorem c9_resolve_failure_empties_address (oracle : String → FetchOutcome2)
    (fs : List String) (h5 : fs.length = 5)
    (hlat : (goParseFloat (fs.getD 3 "")).getD 0 = 0)
    (hlng : (goParseFloat (fs.getD 4 "")).getD 0 = 0)
    (hfail : loopkupFails (oracle (fs.getD 2 "")) = true) :
    visitFromStringsResolve oracle fs =
      some { address := "", when := goParseDate (fs.getD 0 ""), purpose := fs.getD 1 ""
             lat := 0, lng := 0 } := by
  unfold visitFromStringsResolve
  rw [if_pos h5]
  simp only [hlat, hlng]
  rw [if_pos (show True ∧ True from ⟨trivial, trivial⟩)]
  rw [loopkup_of_fails _ _ hfail]

/-- Witness for C9 at a concrete sentinel row and failing network. -/
theorem c9_witness :
    (["2020-01-01", "p", "10 Downing St", "0", "0"] : List String).length = 5 ∧
      (goParseFloat (["2020-01-01", "p", "10 Downing St", "0", "0"].getD 3 "")).getD 0 = 0 ∧
      (goParseFloat (["2020-01-01", "p", "10 Downing St", "0", "0"].getD 4 "")).getD 0 = 0 ∧
      loopkupFails ((fun _ => FetchOutcome2.transportError) "10 Downing St") = true ∧
      visitFromStringsResolve (fun _ => FetchOutcome2.transportError)
          ["2020-01-01", "p", "10 Downing St", "0", "0"] =
        some { address := "", when := ⟨2020, 1, 1⟩, purpose := "p", lat := 0, lng := 0 } :=
  ⟨by decide, by decide, by decide, by decide, by
    have h := c9_resolve_failure_empties_address (fun _ => FetchOutcome2.transportError)
      ["2020-01-01", "p", "10 Downing St", "0", "0"] (by decide) (by decide) (by decide) (by decide)
    rw [h]; decide⟩

/-! Claim C1. -/

/-- C1: the claim states that a later visit is dropped by deduplication
if and only if BOTH its rounded latitude and its rounded longitude
match an earlier visit.  The code's key is the latitude formatted twice
(`fmt.Sprintf("%.04f,%.04f", visit.lat, visit.lat)`), so the second
visit below is dropped even though the longitudes (-75 and 10) differ
at 4 decimal places — the code contradicts the claim (the spec's design
notes flag this as a likely defect). -/
theorem c1_dedup_drops_distinct_longitudes :
    dedupVisits
        [{ address := "A", when := ⟨2020, 1, 1⟩, purpose := "", lat := 40, lng := -75 },
         { address := "B", when := ⟨2020, 6, 15⟩, purpose := "", lat := 40, lng := 10 }] =
      [{ address := "A", when := ⟨2020, 1, 1⟩, purpose := "", lat := 40, lng := -75 }] ∧
    fmtFloatFixed 4 (-75 : Rat) ≠ fmtFloatFixed 4 (10 : Rat) := by
  constructor
  · decide
  · decide

/-! Claim C2. -/

/-- C2: the claim says a row whose field count is not 5 is dropped by
the parser, does not appear in output, and no fault propagates — the
remaining rows are still processed.  The code diverges twice.  When the
FIRST record is short, the reader delivers it (it fixes the expected
count), the parser returns nil exactly as claimed, but neither main
checks the result: variant 1 dereferences `visit.lat` immediately and
variant 2 appends the nil and dereferences it during the rewrite, so
the run panics (modelled by `none`).  When a short row follows a
5-field first record, it never reaches the parser: `Read` returns
`ErrFieldCount`, both read loops stop, and every later row — including
a perfectly valid one — is silently dropped from the output, so the
remaining rows are NOT processed. -/
theorem c2_short_row_panics_pipeline :
    csvRead [["2020-01-01", "museum", "123 Main St", "40.0"]] =
      [["2020-01-01", "museum", "123 Main St", "40.0"]] ∧
    visitFromStringsV1 ["2020-01-01", "museum", "123 Main St", "40.0"] = none ∧
    visitFromStringsV2 noNetwork ["2020-01-01", "museum", "123 Main St", "40.0"] = none ∧
    mainLoopV1 [["2020-01-01", "museum", "123 Main St", "40.0"]] = none ∧
    pipelineV2 noNetwork [["2020-01-01", "museum", "123 Main St", "40.0"]] = none ∧
    csvRead
        [["2020-01-01", "museum", "123 Main St", "40.0000", "-75.0000"],
         ["2020-01-01", "museum", "123 Main St", "40.0"],
         ["2020-06-15", "beach", "9 Shore Rd", "25.0000", "-80.0000"]] =
      [["2020-01-01", "museum", "123 Main St", "40.0000", "-75.0000"]] ∧
    pipelineV2 noNetwork
        [["2020-01-01", "museum", "123 Main St", "40.0000", "-75.0000"],
         ["2020-01-01", "museum", "123 Main St", "40.0"],
         ["2020-06-15", "beach", "9 Shore Rd", "25.0000", "-80.0000"]] =
      some [["2020-01-01", "museum", "123 Main St", "40.0000", "-75.0000"]] := by
  refine ⟨by decide, by decide, by decide, by decide, by decide, by decide, by decide⟩

/-! Claim C5. -/

/-- Appending a fresh year extends the expected assignment list with
the next palette entry. -/
theorem assignedFor_append (ys : List Nat) (y : Nat) :
    ∀ i, assignedFor (ys ++ [y]) i = assignedFor ys i ++ [(y, palette (i + ys.length))] := by
  induction ys with
  | nil => intro i; simp [assignedFor]
  | cons z ys ih =>
    intro i
    calc assignedFor ((z :: ys) ++ [y]) i
        = (z, palette i) :: assignedFor (ys ++ [y]) (i + 1) := rfl
      _ = (z, palette i) :: (assignedFor ys (i + 1) ++ [(y, palette (i + 1 + ys.length))]) := by
            rw [ih (i + 1)]
      _ = (z, palette i) :: (assignedFor ys (i + 1) ++ [(y, palette (i + (z :: ys).length))]) := by
            rw [show i + 1 + ys.length = i + (z :: ys).length from by simp; omega]
      _ = assignedFor (z :: ys) i ++ [(y, palette (i + (z :: ys).length))] := rfl

/-- A year not in the list is not found in its expected assignments. -/
theorem lookup_assignedFor_none (y : Nat) (ys : List Nat) (hy : y ∉ ys) :
    ∀ i, (assignedFor ys i).lookup y = none := by
  induction ys with
  | nil => intro i; rfl
  | cons z ys ih =>
    intro i
    have hzy : y ≠ z := by intro h; exact hy (h ▸ List.mem_cons_self z ys)
    have hmem : y ∉ ys := fun h => hy (List.mem_cons_of_mem z h)
    have hbeq : (y == z) = false := beq_eq_false_iff_ne.mpr hzy
    show List.lookup y ((z, palette i) :: assignedFor ys (i + 1)) = none
    simp only [List.lookup, hbeq]
    exact ih hmem (i + 1)

/-- A year in the list is found in its expected assignments. -/
theorem lookup_assignedFor_isSome (y : Nat) (ys : List Nat) (hy : y ∈ ys) :
    ∀ i, ∃ c, (assignedFor ys i).lookup y = some c := by
  induction ys with
  | nil => cases hy
  | cons z ys ih =>
    intro i
    by_cases hzy : y = z
    · refine ⟨palette i, ?_⟩
      have hbeq : (y == z) = true := beq_iff_eq.mpr hzy
      show List.lookup y ((z, palette i) :: assignedFor ys (i + 1)) = some (palette i)
      simp only [List.lookup, hbeq]
    · have hmem : y ∈ ys := by
        rcases List.mem_cons.mp hy with h | h
        · exact absurd h hzy
        · exact h
      obtain ⟨c, hc⟩ := ih hmem (i + 1)
      refine ⟨c, ?_⟩
      have hbeq : (y == z) = false := beq_eq_false_iff_ne.mpr hzy
      show List.lookup y ((z, palette i) :: assignedFor ys (i + 1)) = some c
      simp only [List.lookup, hbeq]
      exact hc

/-- In a duplicate-free year list, the n-th year's expected assignment
is the palette entry offset by n. -/
theorem lookup_assignedFor_get (ys : List Nat) (hnd : ys.Nodup) :
    ∀ (n : Nat) (h : n < ys.length) (i : Nat),
      (assignedFor ys i).lookup (ys.get ⟨n, h⟩) = some (palette (i + n)) := by
  induction ys with
  | nil => intro n h; cases h
  | cons z ys ih =>
    intro n h i
    match n with
    | 0 =>
      show List.lookup z ((z, palette i) :: assignedFor ys (i + 1)) = some (palette (i + 0))
      have hbeq : (z == z) = true := beq_iff_eq.mpr rfl
      simp only [List.lookup, hbeq, Nat.add_zero]
    | n + 1 =>
      have hlt : n < ys.length := Nat.lt_of_succ_lt_succ h
      have hz : ys.get ⟨n, hlt⟩ ≠ z := by
        intro hEq
        exact (List.nodup_cons.mp hnd).1 (hEq ▸ List.get_mem ys n hlt)
      have hih := ih (List.nodup_cons.mp hnd).2 n hlt (i + 1)
      have hbeq : (ys.get ⟨n, hlt⟩ == z) = false := beq_eq_false_iff_ne.mpr hz
      show List.lookup ((z :: ys).get ⟨n + 1, h⟩)
          ((z, palette i) :: assignedFor ys (i + 1)) = some (palette (i + (n + 1)))
      rw [List.get_cons_succ]
      simp only [List.lookup, hbeq]
      rw [hih, show i + 1 + n = i + (n + 1) from by omega]

/-- Membership in the first-seen fold: a year is collected exactly when
it was already in the accumulator or occurs in the processed dates. -/
theorem mem_firstSeen_foldl (ts : List GoDate) :
    ∀ (acc : List Nat) (y : Nat),
      y ∈ ts.foldl (fun acc t => if t.year ∈ acc then acc else acc ++ [t.year]) acc ↔
        y ∈ acc ∨ y ∈ ts.map GoDate.year := by
  induction ts with
  | nil => intro acc y; simp
  | cons t ts ih =>
    intro acc y
    rw [List.foldl_cons]
    by_cases h : t.year ∈ acc
    · rw [if_pos h, ih]
      constructor
      · intro hy
        rcases hy with hy | hy
        · exact Or.inl hy
        · refine Or.inr ?_
          rw [List.map_cons, List.mem_cons]
          exact Or.inr hy
      · intro hy
        rcases hy with hy | hy
        · exact Or.inl hy
        · rw [List.map_cons, List.mem_cons] at hy
          rcases hy with hy | hy
          · exact Or.inl (hy ▸ h)
          · exact Or.inr hy
    · rw [if_neg h, ih]
      constructor
      · intro hy
        rcases hy with hy | hy
        · rw [List.mem_append, List.mem_singleton] at hy
          rcases hy with hy | hy
          · exact Or.inl hy
          · refine Or.inr ?_
            rw [List.map_cons, List.mem_cons]
            exact Or.inl hy
        · refine Or.inr ?_
          rw [List.map_cons, List.mem_cons]
          exact Or.inr hy
      · intro hy
        rcases hy with hy | hy
        · refine Or.inl ?_
          rw [List.mem_append, List.mem_singleton]
          exact Or.inl hy
        · rw [List.map_cons, List.mem_cons] at hy
          rcases hy with hy | hy
          · refine Or.inl ?_
            rw [List.mem_append, List.mem_singleton]
            exact Or.inr hy
          · exact Or.inr hy

/-- The first-seen fold never collects a year twice. -/
theorem nodup_firstSeen_foldl (ts : List GoDate) :
    ∀ (acc : List Nat), acc.Nodup →
      (ts.foldl (fun acc t => if t.year ∈ acc then acc else acc ++ [t.year]) acc).Nodup := by
  induction ts with
  | nil => intro acc h; exact h
  | cons t ts ih =>
    intro acc h
    rw [List.foldl_cons]
    by_cases hmem : t.year ∈ acc
    · rw [if_pos hmem]; exact ih acc h
    · rw [if_neg hmem]
      refine ih _ ?_
      simp [List.nodup_append, h, hmem]

/-- The color assigner's invariant: starting from a state that reflects
an already-collected year list, running it over further dates yields
the state reflecting the extended first-seen list, with the cursor at
the number of distinct years modulo 12. -/
theorem colorRun_inv (ts : List GoDate) :
    ∀ (acc : List Nat) (s : ColorState),
      s.assigned = assignedFor acc 0 → s.nextColor = acc.length % 12 →
      (colorRun s ts).assigned =
          assignedFor (ts.foldl (fun acc t => if t.year ∈ acc then acc else acc ++ [t.year]) acc) 0 ∧
        (colorRun s ts).nextColor =
          (ts.foldl (fun acc t => if t.year ∈ acc then acc else acc ++ [t.year]) acc).length % 12 := by
  induction ts with
  | nil => intro acc s h1 h2; exact ⟨h1, h2⟩
  | cons t ts ih =>
    intro acc s h1 h2
    rw [List.foldl_cons]
    by_cases hmem : t.year ∈ acc
    · rw [if_pos hmem]
      obtain ⟨c, hc⟩ := lookup_assignedFor_isSome t.year acc hmem 0
      have hstep : (colorForYear s t).2 = s := by
        unfold colorForYear
        rw [h1, hc]
      have hrun : colorRun s (t :: ts) = colorRun (colorForYear s t).2 ts := rfl
      rw [hrun, hstep]
      exact ih acc s h1 h2
    · rw [if_neg hmem]
      have hnone : s.assigned.lookup t.year = none := by
        rw [h1]; exact lookup_assignedFor_none t.year acc hmem 0
      have hstep : (colorForYear s t).2 =
          ⟨s.assigned ++ [(t.year, colors.getD s.nextColor "")],
            (s.nextColor + 1) % colors.length⟩ := by
        unfold colorForYear
        rw [hnone]
      have hrun : colorRun s (t :: ts) = colorRun (colorForYear s t).2 ts := rfl
      rw [hrun, hstep]
      refine ih (acc ++ [t.year]) _ ?_ ?_
      · rw [h1, h2, assignedFor_append]
        simp [palette]
      · rw [h2]
        show (acc.length % 12 + 1) % colors.length = (acc ++ [t.year]).length % 12
        have hcl : colors.length = 12 := rfl
        rw [hcl, List.length_append]
        simp only [List.length_singleton]
        omega

/-- C5: running `colorForYear` over any sequence of visits, the Nth
distinct year encountered receives palette entry (N-1) mod 12 (here
0-indexed: the year at position n of the first-seen list is assigned
`colors[n % 12]`); a later call with an already-seen year returns the
previously assigned color and leaves the state unchanged (no new
assignment), while a call with a fresh year takes the next palette
entry. -/
theorem c5_color_assignment (ts : List GoDate) (t : GoDate) :
    (∀ (n : Nat) (h : n < (firstSeenYears ts).length),
        ((colorRun initialColorState ts).assigned).lookup ((firstSeenYears ts).get ⟨n, h⟩) =
          some (colors.getD (n % 12) "")) ∧
    (t.year ∈ firstSeenYears ts →
        (colorForYear (colorRun initialColorState ts) t).1 =
            (((colorRun initialColorState ts).assigned).lookup t.year).getD "" ∧
          (colorForYear (colorRun initialColorState ts) t).2 = colorRun initialColorState ts) ∧
    (t.year ∉ firstSeenYears ts →
        (colorForYear (colorRun initialColorState ts) t).1 =
            colors.getD ((firstSeenYears ts).length % 12) "" ∧
          (colorForYear (colorRun initialColorState ts) t).2.assigned =
            (colorRun initialColorState ts).assigned ++
              [(t.year, colors.getD ((firstSeenYears ts).length % 12) "")]) := by
  obtain ⟨hassigned, hnext⟩ := colorRun_inv ts [] initialColorState rfl rfl
  have hfs : (firstSeenYears ts) =
      ts.foldl (fun acc t => if t.year ∈ acc then acc else acc ++ [t.year]) [] := rfl
  refine ⟨?_, ?_, ?_⟩
  · intro n h
    rw [hassigned, ← hfs]
    have hnd : (firstSeenYears ts).Nodup := by
      rw [hfs]; exact nodup_firstSeen_foldl ts [] List.nodup_nil
    have := lookup_assignedFor_get (firstSeenYears ts) hnd n h 0
    rw [this]
    simp [palette]
  · intro hmem
    obtain ⟨c, hc⟩ := lookup_assignedFor_isSome t.year (firstSeenYears ts) (by rwa [hfs] at hmem) 0
    rw [← hfs] at hassigned
    have hc' : ((colorRun initialColorState ts).assigned).lookup t.year = some c := by
      rw [hassigned]; exact hc
    constructor
    · unfold colorForYear
      rw [hc']
      rfl
    · unfold colorForYear
      rw [hc']
  · intro hmem
    have hnone : ((colorRun initialColorState ts).assigned).lookup t.year = none := by
      rw [hassigned, ← hfs]
      exact lookup_assignedFor_none t.year (firstSeenYears ts) hmem 0
    rw [← hfs] at hnext
    constructor
    · unfold colorForYear
      rw [hnone, hnext]
    · unfold colorForYear
      rw [hnone, hnext]

/-- Witness for C5 at a concrete run with two distinct years followed
by a fresh third year and a lookup of the second distinct year. -/
theorem c5_witness :
    (1 < (firstSeenYears [⟨2019, 1, 1⟩, ⟨2020, 2, 2⟩, ⟨2019, 3, 3⟩]).length) ∧
    ((colorRun initialColorState [⟨2019, 1, 1⟩, ⟨2020, 2, 2⟩, ⟨2019, 3, 3⟩]).assigned).lookup
        ((firstSeenYears [⟨2019, 1, 1⟩, ⟨2020, 2, 2⟩, ⟨2019, 3, 3⟩]).get ⟨1, by decide⟩) =
      some (colors.getD (1 % 12) "") ∧
    ((⟨2021, 4, 4⟩ : GoDate).year ∉ firstSeenYears [⟨2019, 1, 1⟩, ⟨2020, 2, 2⟩, ⟨2019, 3, 3⟩]) ∧
    (colorForYear (colorRun initialColorState [⟨2019, 1, 1⟩, ⟨2020, 2, 2⟩, ⟨2019, 3, 3⟩])
          ⟨2021, 4, 4⟩).1 =
      colors.getD
        ((firstSeenYears [⟨2019, 1, 1⟩, ⟨2020, 2, 2⟩, ⟨2019, 3, 3⟩]).length % 12) "" :=
  ⟨by decide,
   (c5_color_assignment [⟨2019, 1, 1⟩, ⟨2020, 2, 2⟩, ⟨2019, 3, 3⟩] ⟨2021, 4, 4⟩).1 1 (by decide),
   by decide,
   ((c5_color_assignment [⟨2019, 1, 1⟩, ⟨2020, 2, 2⟩, ⟨2019, 3, 3⟩] ⟨2021, 4, 4⟩).2.2
      (by decide)).1⟩

/-! Claim C4. -/

/-- The date comparison in propositional form. -/
theorem dateLtB_iff (a b : GoDate) :
    dateLtB a b = true ↔
      (a.year < b.year ∨
        (a.year = b.year ∧
          (a.month < b.month ∨ (a.month = b.month ∧ a.day < b.day)))) := by
  rcases a with ⟨a1, a2, a3⟩
  rcases b with ⟨b1, b2, b3⟩
  simp only [dateLtB]
  by_cases h1 : a1 = b1
  · by_cases h2 : a2 = b2
    · simp [h1, h2]
    · simp [h1, h2]
  · simp [h1]

/-- The negated date comparison in propositional form. -/
theorem dateLtB_eq_false_iff (a b : GoDate) :
    dateLtB a b = false ↔
      ¬(a.year < b.year ∨
        (a.year = b.year ∧
          (a.month < b.month ∨ (a.month = b.month ∧ a.day < b.day)))) := by
  rw [← dateLtB_iff]
  cases h : dateLtB a b <;> simp

/-- Two dates neither of which is before the other are equal. -/
theorem dateLtB_total {a b : GoDate} (h1 : dateLtB a b = false) (h2 : dateLtB b a = false) :
    a = b := by
  rw [dateLtB_eq_false_iff] at h1 h2
  rcases a with ⟨a1, a2, a3⟩
  rcases b with ⟨b1, b2, b3⟩
  dsimp only at h1 h2
  simp only [GoDate.mk.injEq]
  omega

/-- Date order is transitive across a non-strict middle step. -/
theorem dateLtB_neg_trans {a b c : GoDate} (h1 : dateLtB b a = false)
    (h2 : dateLtB c b = false) : dateLtB c a = false := by
  rw [dateLtB_eq_false_iff] at h1 h2 ⊢
  omega

/-- Date trichotomy. -/
theorem dateLtB_trichot (a b : GoDate) :
    dateLtB a b = true ∨ a = b ∨ dateLtB b a = true := by
  cases h1 : dateLtB a b
  · cases h2 : dateLtB b a
    · exact Or.inr (Or.inl (dateLtB_total h1 h2))
    · exact Or.inr (Or.inr rfl)
  · exact Or.inl rfl

/-- The lexicographic character order is irreflexive. -/
theorem strLtB_irrefl : ∀ as, strLtB as as = false := by
  intro as
  induction as with
  | nil => rfl
  | cons a as ih => simp [strLtB, lt_irrefl, ih]

/-- The lexicographic character order is transitive. -/
theorem strLtB_trans : ∀ as bs cs, strLtB as bs = true → strLtB bs cs = true →
    strLtB as cs = true := by
  intro as
  induction as with
  | nil =>
    intro bs cs h1 h2
    cases bs with
    | nil => cases h1
    | cons b bs =>
      cases cs with
      | nil => cases h2
      | cons c cs => rfl
  | cons a as ih =>
    intro bs cs h1 h2
    cases bs with
    | nil => cases h1
    | cons b bs =>
      cases cs with
      | nil => cases h2
      | cons c cs =>
        simp only [strLtB] at h1 h2 ⊢
        by_cases hab : a < b
        · by_cases hbc : b < c
          · simp [lt_trans hab hbc]
          · rw [if_neg hbc] at h2
            by_cases hcb : c < b
            · rw [if_pos hcb] at h2; cases h2
            · rw [if_neg hcb] at h2
              have hbceq : b = c := le_antisymm (not_lt.mp hcb) (not_lt.mp hbc)
              simp [hbceq ▸ hab]
        · rw [if_neg hab] at h1
          by_cases hba : b < a
          · rw [if_pos hba] at h1; cases h1
          · rw [if_neg hba] at h1
            have habeq : a = b := le_antisymm (not_lt.mp hba) (not_lt.mp hab)
            subst habeq
            by_cases hac : a < c
            · simp [hac]
            · rw [if_neg hac] at h2 ⊢
              by_cases hca : c < a
              · rw [if_pos hca] at h2; cases h2
              · rw [if_neg hca] at h2 ⊢
                exact ih bs cs h1 h2

/-- Two character lists neither of which is lexicographically smaller
are equal. -/
theorem strLtB_total : ∀ as bs, strLtB as bs = false → strLtB bs as = false → as = bs := by
  intro as
  induction as with
  | nil =>
    intro bs h1 _
    cases bs with
    | nil => rfl
    | cons b bs => cases h1
  | cons a as ih =>
    intro bs h1 h2
    cases bs with
    | nil => cases h2
    | cons b bs =>
      simp only [strLtB] at h1 h2
      by_cases hab : a < b
      · rw [if_pos hab] at h1; cases h1
      · by_cases hba : b < a
        · rw [if_pos hba] at h2; cases h2
        · rw [if_neg hab, if_neg hba] at h1
          rw [if_neg hba, if_neg hab] at h2
          have habeq : a = b := le_antisymm (not_lt.mp hba) (not_lt.mp hab)
          rw [habeq, ih bs h1 h2]

/-- Character-list trichotomy. -/
theorem strLtB_trichot (as bs : List Char) :
    strLtB as bs = true ∨ as = bs ∨ strLtB bs as = true := by
  cases h1 : strLtB as bs
  · cases h2 : strLtB bs as
    · exact Or.inr (Or.inl (strLtB_total as bs h1 h2))
    · exact Or.inr (Or.inr rfl)
  · exact Or.inl rfl

/-- Character-list order is transitive across a non-strict middle
step. -/
theorem strLtB_neg_trans {as bs cs : List Char} (h1 : strLtB bs as = false)
    (h2 : strLtB cs bs = false) : strLtB cs as = false := by
  cases h : strLtB cs as
  · rfl
  · exfalso
    rcases strLtB_trichot as bs with hab | hab | hab
    · have hcb : strLtB cs bs = true := strLtB_trans cs as bs h hab
      rw [hcb] at h2; cases h2
    · subst hab; rw [h] at h2; cases h2
    · rw [hab] at h1; cases h1

/-- Strings with equal character data are equal. -/
theorem string_data_inj {s t : String} (h : s.data = t.data) : s = t := by
  cases s
  cases t
  exact congrArg String.mk h

instance : IsTotal Visit visitLE := by
  constructor
  intro a b
  unfold visitLE visitLessB
  by_cases hw : a.when = b.when
  · rw [if_pos hw, if_pos hw.symm]
    cases h1 : strLtB b.address.data a.address.data
    · exact Or.inl rfl
    · cases h2 : strLtB a.address.data b.address.data
      · exact Or.inr rfl
      · exfalso
        have h3 := strLtB_trans _ _ _ h1 h2
        rw [strLtB_irrefl] at h3
        cases h3
  · rw [if_neg hw, if_neg (fun h => hw h.symm)]
    cases h1 : dateLtB b.when a.when
    · exact Or.inl rfl
    · refine Or.inr ?_
      rw [dateLtB_iff] at h1
      rw [dateLtB_eq_false_iff]
      omega

instance : IsTrans Visit visitLE := by
  constructor
  intro a b c hab hbc
  unfold visitLE visitLessB at hab hbc ⊢
  by_cases hca : c.when = a.when
  · rw [if_pos hca]
    by_cases hba : b.when = a.when
    · rw [if_pos hba] at hab
      rw [if_pos (hca.trans hba.symm)] at hbc
      exact strLtB_neg_trans hab hbc
    · exfalso
      rw [if_neg hba] at hab
      rw [if_neg (fun h => hba (h.symm.trans hca))] at hbc
      rw [← hca] at hab
      exact hba ((dateLtB_total hbc hab).symm.trans hca)
  · rw [if_neg hca]
    by_cases hba : b.when = a.when
    · rw [if_neg (fun h => hca (h.trans hba))] at hbc
      rw [hba] at hbc
      exact hbc
    · rw [if_neg hba] at hab
      by_cases hcb : c.when = b.when
      · rw [if_pos hcb] at hbc
        rw [hcb]
        exact hab
      · rw [if_neg hcb] at hbc
        exact dateLtB_neg_trans hab hbc

/-- C4: the `visitList.Less` sort places visits in a total order — for
any two positions i < j of the sorted output, if the dates differ the
earlier date comes first, and if the dates are equal but the addresses
differ, the lexicographically smaller address comes first; the output
is a permutation of the input. -/
theorem c4_sort_total_order (vs : List Visit) (i j : Nat)
    (hi : i < (sortVisits vs).length) (hj : j < (sortVisits vs).length) (hij : i < j) :
    (sortVisits vs).Perm vs ∧
    (((sortVisits vs).get ⟨i, hi⟩).when ≠ ((sortVisits vs).get ⟨j, hj⟩).when →
      dateLtB ((sortVisits vs).get ⟨i, hi⟩).when ((sortVisits vs).get ⟨j, hj⟩).when = true) ∧
    (((sortVisits vs).get ⟨i, hi⟩).when = ((sortVisits vs).get ⟨j, hj⟩).when →
      ((sortVisits vs).get ⟨i, hi⟩).address ≠ ((sortVisits vs).get ⟨j, hj⟩).address →
      strLtB ((sortVisits vs).get ⟨i, hi⟩).address.data
        ((sortVisits vs).get ⟨j, hj⟩).address.data = true) := by
  have hsorted : List.Sorted visitLE (sortVisits vs) :=
    List.sorted_insertionSort visitLE vs
  have hrel : visitLE ((sortVisits vs).get ⟨i, hi⟩) ((sortVisits vs).get ⟨j, hj⟩) :=
    hsorted.rel_get_of_lt hij
  refine ⟨List.perm_insertionSort visitLE vs, ?_, ?_⟩
  · intro hne
    unfold visitLE visitLessB at hrel
    rw [if_neg (fun h => hne h.symm)] at hrel
    rcases dateLtB_trichot ((sortVisits vs).get ⟨i, hi⟩).when
        ((sortVisits vs).get ⟨j, hj⟩).when with h | h | h
    · exact h
    · exact absurd h hne
    · rw [h] at hrel; cases hrel
  · intro heq hne
    unfold visitLE visitLessB at hrel
    rw [if_pos heq.symm] at hrel
    rcases strLtB_trichot ((sortVisits vs).get ⟨i, hi⟩).address.data
        ((sortVisits vs).get ⟨j, hj⟩).address.data with h | h | h
    · exact h
    · exact absurd (string_data_inj h) hne
    · rw [h] at hrel; cases hrel

/-- Witness for C4 at a concrete two-element list with distinct dates. -/
theorem c4_witness :
    (0 : Nat) <
        (sortVisits
            [{ address := "B", when := ⟨2021, 1, 1⟩, purpose := "", lat := 0, lng := 1 },
             { address := "A", when := ⟨2020, 1, 1⟩, purpose := "", lat := 0, lng := 1 }]).length ∧
      (1 : Nat) <
        (sortVisits
            [{ address := "B", when := ⟨2021, 1, 1⟩, purpose := "", lat := 0, lng := 1 },
             { address := "A", when := ⟨2020, 1, 1⟩, purpose := "", lat := 0, lng := 1 }]).length ∧
      dateLtB
          ((sortVisits
              [{ address := "B", when := ⟨2021, 1, 1⟩, purpose := "", lat := 0, lng := 1 },
               { address := "A", when := ⟨2020, 1, 1⟩, purpose := "", lat := 0, lng := 1 }]).get
            ⟨0, by decide⟩).when
          ((sortVisits
              [{ address := "B", when := ⟨2021, 1, 1⟩, purpose := "", lat := 0, lng := 1 },
               { address := "A", when := ⟨2020, 1, 1⟩, purpose := "", lat := 0, lng := 1 }]).get
            ⟨1, by decide⟩).when = true :=
  ⟨by decide, by decide,
   (c4_sort_total_order
      [{ address := "B", when := ⟨2021, 1, 1⟩, purpose := "", lat := 0, lng := 1 },
       { address := "A", when := ⟨2020, 1, 1⟩, purpose := "", lat := 0, lng := 1 }]
      0 1 (by decide) (by decide) (by decide)).2.1 (by decide)⟩

/-- C4 counterexample: the first program sorts with
`slices.SortFunc(visits, func(a, b) { return a.when.Compare(b.when) })`
— date only.  On two visits with equal dates and addresses "B", "A"
(in that input order) the sorted output keeps "B" before "A", so the
visit with the lexicographically smaller address does NOT precede,
contradicting the claim for this cited sort site. -/
theorem c4_counterexample_v1_sort_ignores_address :
    sortVisitsV1
        [{ address := "B", when := ⟨2020, 1, 1⟩, purpose := "", lat := 0, lng := 1 },
         { address := "A", when := ⟨2020, 1, 1⟩, purpose := "", lat := 0, lng := 2 }] =
      [{ address := "B", when := ⟨2020, 1, 1⟩, purpose := "", lat := 0, lng := 1 },
       { address := "A", when := ⟨2020, 1, 1⟩, purpose := "", lat := 0, lng := 2 }] ∧
    strLtB "A".data "B".data = true := by
  constructor
  · decide
  · decide

/-! Claim C8. -/

/-- The `filterByPurpose` loop, started from any accumulator, appends
exactly the visits whose purpose matches. -/
theorem filterByPurpose_foldl (purpose : String) (vs : List Visit) (acc : List Visit) :
    vs.foldl (fun res v => if v.purpose = purpose then res ++ [v] else res) acc =
      acc ++ vs.filter (fun v => v.purpose == purpose) := by
  induction vs generalizing acc with
  | nil => simp
  | cons v vs ih =>
    by_cases h : v.purpose = purpose
    · simp [List.foldl_cons, h, ih, List.filter_cons]
    · simp [List.foldl_cons, h, ih, List.filter_cons]

/-- C8: for every purpose value observed among the visits (including
the empty purpose, which is its own partition), the partitioner
produces exactly the ordered sub-sequence of visits whose purpose
equals that value exactly (case-sensitive), preserving relative
order. -/
theorem c8_partition (vs : List Visit) (p : String) (hp : p ∈ purposesOf vs) :
    filterByPurpose vs p = vs.filter (fun v => v.purpose == p) ∧
    (filterByPurpose vs p).Sublist vs ∧
    ∀ v, v ∈ filterByPurpose vs p ↔ v ∈ vs ∧ v.purpose = p := by
  have hfilter : filterByPurpose vs p = vs.filter (fun v => v.purpose == p) := by
    unfold filterByPurpose
    simpa using filterByPurpose_foldl p vs []
  refine ⟨hfilter, ?_, ?_⟩
  · rw [hfilter]; exact List.filter_sublist vs
  · intro v
    rw [hfilter]
    simp [List.mem_filter]

/-- Witness for C8 at a concrete visit list with purposes "museum" and
the empty purpose. -/
theorem c8_witness :
    "museum" ∈ purposesOf
        [{ address := "A", when := ⟨2020, 1, 1⟩, purpose := "museum", lat := 1, lng := 2 },
         { address := "B", when := ⟨2020, 1, 2⟩, purpose := "", lat := 3, lng := 4 },
         { address := "C", when := ⟨2020, 1, 3⟩, purpose := "museum", lat := 5, lng := 6 }] ∧
      filterByPurpose
          [{ address := "A", when := ⟨2020, 1, 1⟩, purpose := "museum", lat := 1, lng := 2 },
           { address := "B", when := ⟨2020, 1, 2⟩, purpose := "", lat := 3, lng := 4 },
           { address := "C", when := ⟨2020, 1, 3⟩, purpose := "museum", lat := 5, lng := 6 }]
          "museum" =
        List.filter (fun v => v.purpose == "museum")
          [{ address := "A", when := ⟨2020, 1, 1⟩, purpose := "museum", lat := 1, lng := 2 },
           { address := "B", when := ⟨2020, 1, 2⟩, purpose := "", lat := 3, lng := 4 },
           { address := "C", when := ⟨2020, 1, 3⟩, purpose := "museum", lat := 5, lng := 6 }] :=
  ⟨by decide,
   (c8_partition
      [{ address := "A", when := ⟨2020, 1, 1⟩, purpose := "museum", lat := 1, lng := 2 },
       { address := "B", when := ⟨2020, 1, 2⟩, purpose := "", lat := 3, lng := 4 },
       { address := "C", when := ⟨2020, 1, 3⟩, purpose := "museum", lat := 5, lng := 6 }]
      "museum" (by decide)).1⟩

/-! Claim C7: digit-level machinery. -/

/-- The digit character of a digit value parses back to it. -/
theorem digitVal_digitChar {n : Nat} (h : n < 10) : digitVal (digitChar n) = some n := by
  interval_cases n <;> rfl

/-- A parsed digit value is below 10. -/
theorem digitVal_lt {c : Char} {n : Nat} (h : digitVal c = some n) : n < 10 := by
  unfold digitVal at h
  split_ifs at h <;> simp_all <;> omega

/-- A character that parses as a digit is the digit character of its
value. -/
theorem digitChar_digitVal {c : Char} {n : Nat} (h : digitVal c = some n) : digitChar n = c := by
  unfold digitVal at h
  split_ifs at h
  all_goals
    first
      | exact Option.noConfusion h
      | (injection h with h
         subst n
         rename_i hc
         subst hc
         rfl)

/-- Digit characters are recognised as digits. -/
theorem isDigitChar_digitChar {n : Nat} (h : n < 10) : isDigitChar (digitChar n) = true := by
  unfold isDigitChar
  rw [digitVal_digitChar h]
  rfl

/-- Sufficient fuel yields a nonempty digit string. -/
theorem natDigitsFuel_ne_nil : ∀ {fuel n : Nat}, n < fuel → natDigitsFuel fuel n ≠ [] := by
  intro fuel n h
  cases fuel with
  | zero => omega
  | succ fuel =>
    simp only [natDigitsFuel]
    by_cases h10 : n < 10
    · simp [h10]
    · simp [h10]

/-- Every character of a digit string is a digit. -/
theorem natDigitsFuel_all_digits : ∀ (fuel n : Nat), n < fuel →
    ∀ c ∈ natDigitsFuel fuel n, isDigitChar c = true := by
  intro fuel
  induction fuel with
  | zero => intro n h; omega
  | succ fuel ih =>
    intro n h c hc
    simp only [natDigitsFuel] at hc
    by_cases h10 : n < 10
    · rw [if_pos h10] at hc
      simp only [List.mem_singleton] at hc
      subst hc
      exact isDigitChar_digitChar h10
    · rw [if_neg h10] at hc
      rcases List.mem_append.mp hc with hc | hc
      · exact ih (n / 10) (by omega) c hc
      · simp only [List.mem_singleton] at hc
        subst hc
        exact isDigitChar_digitChar (Nat.mod_lt _ (by norm_num))

/-- Reading digits is the fold over the characters, split at an
append. -/
theorem digitsVal_append (acc : Nat) (l1 l2 : List Char) :
    digitsVal acc (l1 ++ l2) = digitsVal (digitsVal acc l1) l2 := by
  unfold digitsVal
  rw [List.foldl_append]

/-- Reading back the digit string of `n` starting from `acc` yields
`acc` shifted past the string plus `n`. -/
theorem digitsVal_natDigitsFuel : ∀ (fuel n acc : Nat), n < fuel →
    digitsVal acc (natDigitsFuel fuel n) =
      acc * 10 ^ (natDigitsFuel fuel n).length + n := by
  intro fuel
  induction fuel with
  | zero => intro n acc h; omega
  | succ fuel ih =>
    intro n acc h
    by_cases h10 : n < 10
    · simp only [natDigitsFuel, if_pos h10]
      simp [digitsVal, digitVal_digitChar h10]
    · simp only [natDigitsFuel, if_neg h10]
      rw [digitsVal_append]
      rw [ih (n / 10) acc (by omega)]
      have hd : digitsVal (acc * 10 ^ (natDigitsFuel fuel (n / 10)).length + n / 10)
          [digitChar (n % 10)] =
          (acc * 10 ^ (natDigitsFuel fuel (n / 10)).length + n / 10) * 10 + n % 10 := by
        simp [digitsVal, digitVal_digitChar (Nat.mod_lt n (by norm_num) : n % 10 < 10)]
      rw [hd, List.length_append]
      have hlen : ((natDigitsFuel fuel (n / 10)).length + [digitChar (n % 10)].length) =
          (natDigitsFuel fuel (n / 10)).length + 1 := by simp
      rw [hlen, pow_succ]
      have hmod : n / 10 * 10 + n % 10 = n := by omega
      calc (acc * 10 ^ (natDigitsFuel fuel (n / 10)).length + n / 10) * 10 + n % 10
          = acc * (10 ^ (natDigitsFuel fuel (n / 10)).length * 10) + (n / 10 * 10 + n % 10) := by
            ring
        _ = acc * (10 ^ (natDigitsFuel fuel (n / 10)).length * 10) + n := by rw [hmod]

/-- Reading back the digit string of `n` yields `n`. -/
theorem digitsVal_natDigits (n : Nat) : digitsVal 0 (natDigits n) = n := by
  have h := digitsVal_natDigitsFuel (n + 1) n 0 (Nat.lt_succ_self n)
  simpa [natDigits] using h

/-- A fixed-width digit string has the requested width. -/
theorem length_padDigits : ∀ (w n : Nat), (padDigits w n).length = w := by
  intro w
  induction w with
  | zero => intro n; rfl
  | succ w ih => intro n; simp [padDigits, ih]

/-- Every character of a fixed-width digit string is a digit. -/
theorem padDigits_all_digits : ∀ (w n : Nat), ∀ c ∈ padDigits w n, isDigitChar c = true := by
  intro w
  induction w with
  | zero => intro n c hc; cases hc
  | succ w ih =>
    intro n c hc
    simp only [padDigits] at hc
    rcases List.mem_append.mp hc with hc | hc
    · exact ih (n / 10) c hc
    · simp only [List.mem_singleton] at hc
      subst hc
      exact isDigitChar_digitChar (Nat.mod_lt _ (by norm_num))

/-- The split of a remainder by its lowest decimal digit. -/
theorem mod_pow_succ_decomp (n w : Nat) :
    n % 10 ^ (w + 1) = n / 10 % 10 ^ w * 10 + n % 10 := by
  have hpow : (10 : Nat) ^ (w + 1) = 10 ^ w * 10 := pow_succ 10 w
  have h1 : 10 * (n / 10) + n % 10 = n := Nat.div_add_mod n 10
  have h2 : 10 ^ w * (n / 10 / 10 ^ w) + n / 10 % 10 ^ w = n / 10 :=
    Nat.div_add_mod (n / 10) (10 ^ w)
  have h4 : (n / 10 % 10 ^ w * 10 + n % 10) + 10 ^ (w + 1) * (n / 10 / 10 ^ w) = n := by
    have h3 : 10 * (10 ^ w * (n / 10 / 10 ^ w) + n / 10 % 10 ^ w) + n % 10 = n := by
      rw [h2, h1]
    calc (n / 10 % 10 ^ w * 10 + n % 10) + 10 ^ (w + 1) * (n / 10 / 10 ^ w)
        = 10 * (10 ^ w * (n / 10 / 10 ^ w) + n / 10 % 10 ^ w) + n % 10 := by
          rw [hpow]; ring
      _ = n := h3
  have hbound : n / 10 % 10 ^ w * 10 + n % 10 < 10 ^ (w + 1) := by
    have hA : n / 10 % 10 ^ w < 10 ^ w := Nat.mod_lt _ (by positivity)
    have hB : n % 10 < 10 := Nat.mod_lt _ (by norm_num)
    omega
  calc n % 10 ^ (w + 1)
      = ((n / 10 % 10 ^ w * 10 + n % 10) + 10 ^ (w + 1) * (n / 10 / 10 ^ w)) % 10 ^ (w + 1) := by
        rw [h4]
    _ = (n / 10 % 10 ^ w * 10 + n % 10) % 10 ^ (w + 1) := Nat.add_mul_mod_self_left _ _ _
    _ = n / 10 % 10 ^ w * 10 + n % 10 := Nat.mod_eq_of_lt hbound

/-- Reading back a fixed-width digit string yields the value modulo the
width. -/
theorem digitsVal_padDigits : ∀ (w n acc : Nat),
    digitsVal acc (padDigits w n) = acc * 10 ^ w + n % 10 ^ w := by
  intro w
  induction w with
  | zero =>
    intro n acc
    simp [padDigits, digitsVal, Nat.mod_one]
  | succ w ih =>
    intro n acc
    simp only [padDigits]
    rw [digitsVal_append, ih (n / 10) acc]
    have hd : digitsVal (acc * 10 ^ w + n / 10 % 10 ^ w) [digitChar (n % 10)] =
        (acc * 10 ^ w + n / 10 % 10 ^ w) * 10 + n % 10 := by
      simp [digitsVal, digitVal_digitChar (Nat.mod_lt n (by norm_num) : n % 10 < 10)]
    rw [hd, mod_pow_succ_decomp, pow_succ]
    ring

/-- `takeWhile` and `dropWhile` split a digit run at the first
non-satisfying character. -/
theorem takeWhile_append_sep (p : Char → Bool) :
    ∀ (l1 : List Char) (d : Char) (l2 : List Char),
      (∀ c ∈ l1, p c = true) → p d = false →
      (l1 ++ d :: l2).takeWhile p = l1 ∧ (l1 ++ d :: l2).dropWhile p = d :: l2 := by
  intro l1
  induction l1 with
  | nil =>
    intro d l2 _ hd
    constructor
    · simp [List.takeWhile_cons, hd]
    · simp [List.dropWhile_cons, hd]
  | cons c l1 ih =>
    intro d l2 hall hd
    have hc : p c = true := hall c (List.mem_cons_self c l1)
    have hrest : ∀ x ∈ l1, p x = true := fun x hx => hall x (List.mem_cons_of_mem c hx)
    obtain ⟨ht, hdr⟩ := ih d l2 hrest hd
    constructor
    · simp [List.takeWhile_cons, hc, ht]
    · simp [List.dropWhile_cons, hc, hdr]

/-- Parsing the printed digits `q . r` (with `r` zero-padded to `prec`
digits) yields the scaled rational. -/
theorem parseUnsignedChars_digits (q r prec : Nat) (hr : r < 10 ^ prec) :
    parseUnsignedChars (natDigits q ++ '.' :: padDigits prec r) =
      some (mkRat (q * 10 ^ prec + r) (10 ^ prec)) := by
  have hall : ∀ c ∈ natDigits q, isDigitChar c = true :=
    natDigitsFuel_all_digits (q + 1) q (Nat.lt_succ_self q)
  have hdot : isDigitChar '.' = false := by decide
  obtain ⟨htake, hdrop⟩ :=
    takeWhile_append_sep isDigitChar (natDigits q) '.' (padDigits prec r) hall hdot
  have hne : (natDigits q).isEmpty = false := by
    cases hnil : natDigits q with
    | nil => exact absurd hnil (natDigitsFuel_ne_nil (Nat.lt_succ_self q))
    | cons c cs => rfl
  have hfrall : (padDigits prec r).all isDigitChar = true :=
    List.all_eq_true.mpr (fun c hc => padDigits_all_digits prec r c hc)
  unfold parseUnsignedChars
  rw [htake, hdrop]
  simp only [hfrall, hne, Bool.false_and, Bool.not_false, Bool.and_true, if_true]
  rw [digitsVal_natDigits, digitsVal_padDigits, length_padDigits, Nat.mod_eq_of_lt hr]
  simp

/-- Printing a rational at fixed precision and parsing it back yields
exactly the rounded value. -/
theorem goParseFloat_fmtFloatFixed (prec : Nat) (x : Rat) :
    goParseFloat (fmtFloatFixed prec x) = some (roundDec prec x) := by
  unfold goParseFloat fmtFloatFixed
  show parseFloatChars (fmtFixedChars prec x) = some (roundDec prec x)
  unfold fmtFixedChars
  have hmod : scaledRound prec x % 10 ^ prec < 10 ^ prec := Nat.mod_lt _ (by positivity)
  have hqr : scaledRound prec x / 10 ^ prec * 10 ^ prec + scaledRound prec x % 10 ^ prec =
      scaledRound prec x := by
    have h := Nat.div_add_mod (scaledRound prec x) (10 ^ prec)
    rw [Nat.mul_comm (10 ^ prec) (scaledRound prec x / 10 ^ prec)] at h
    exact h
  have hparse := parseUnsignedChars_digits (scaledRound prec x / 10 ^ prec)
    (scaledRound prec x % 10 ^ prec) prec hmod
  have hnum : (↑(scaledRound prec x / 10 ^ prec) * (10 : Int) ^ prec +
      ↑(scaledRound prec x % 10 ^ prec)) = (↑(scaledRound prec x) : Int) := by
    exact_mod_cast hqr
  rw [hnum] at hparse
  show parseFloatChars ((if x.num < 0 then ['-'] else []) ++
      natDigits (scaledRound prec x / 10 ^ prec) ++
      '.' :: padDigits prec (scaledRound prec x % 10 ^ prec)) = some (roundDec prec x)
  by_cases hneg : x.num < 0
  · simp only [if_pos hneg, List.singleton_append]
    show (if ('-' : Char) = '-' then
        (parseUnsignedChars (natDigits (scaledRound prec x / 10 ^ prec) ++
          '.' :: padDigits prec (scaledRound prec x % 10 ^ prec))).map (fun q => -q)
      else if ('-' : Char) = '+' then
        parseUnsignedChars (natDigits (scaledRound prec x / 10 ^ prec) ++
          '.' :: padDigits prec (scaledRound prec x % 10 ^ prec))
      else parseUnsignedChars ('-' :: (natDigits (scaledRound prec x / 10 ^ prec) ++
          '.' :: padDigits prec (scaledRound prec x % 10 ^ prec)))) = some (roundDec prec x)
    rw [if_pos rfl, hparse]
    unfold roundDec
    rw [if_pos hneg, Rat.mkRat_eq_divInt, ← Rat.neg_divInt]
    rfl
  · simp only [if_neg hneg, List.nil_append]
    rcases hnd : natDigits (scaledRound prec x / 10 ^ prec) with _ | ⟨c, cs⟩
    · exact absurd hnd (natDigitsFuel_ne_nil (Nat.lt_succ_self _))
    · have hcdig : isDigitChar c = true := by
        have hmem : c ∈ natDigits (scaledRound prec x / 10 ^ prec) := by
          rw [hnd]
          exact List.mem_cons_self c cs
        exact natDigitsFuel_all_digits (scaledRound prec x / 10 ^ prec + 1)
          (scaledRound prec x / 10 ^ prec) (Nat.lt_succ_self _) c hmem
      have hcm : c ≠ '-' := by
        intro hc
        subst hc
        exact absurd hcdig (by decide)
      have hcp : c ≠ '+' := by
        intro hc
        subst hc
        exact absurd hcdig (by decide)
      show (if c = '-' then
          Option.map (fun q => -q)
            (parseUnsignedChars (cs ++ '.' :: padDigits prec (scaledRound prec x % 10 ^ prec)))
        else if c = '+' then
          parseUnsignedChars (cs ++ '.' :: padDigits prec (scaledRound prec x % 10 ^ prec))
        else
          parseUnsignedChars
            (c :: (cs ++ '.' :: padDigits prec (scaledRound prec x % 10 ^ prec)))) =
        some (roundDec prec x)
      rw [if_neg hcm, if_neg hcp]
      rw [show c :: (cs ++ '.' :: padDigits prec (scaledRound prec x % 10 ^ prec)) =
        (c :: cs) ++ '.' :: padDigits prec (scaledRound prec x % 10 ^ prec) from rfl]
      rw [← hnd, hparse]
      unfold roundDec
      rw [if_neg hneg, Rat.mkRat_eq_divInt]

/-- The scaled half-up rounding in `scaledRound` is the floor of the
scaled magnitude plus one half. -/
theorem scaledRound_eq_floor (p : Nat) (x : Rat) :
    ((scaledRound p x : Nat) : Int) = ⌊|x| * ((10 ^ p : Nat) : Rat) + 1 / 2⌋ := by
  have hd : (0 : Rat) < (x.den : Rat) := by
    exact_mod_cast x.den_pos
  have habs : |x| = ((x.num.natAbs : Nat) : Rat) / ((x.den : Nat) : Rat) := by
    have h := Rat.abs_def x
    rw [Rat.divInt_eq_div] at h
    rw [h]
    simp only [Int.cast_natCast]
  have h1 : |x| * ((10 ^ p : Nat) : Rat) + 1 / 2 =
      ((x.num.natAbs * 10 ^ p * 2 + x.den : Nat) : Rat) / ((2 * x.den : Nat) : Rat) := by
    rw [habs]
    have hdne : ((x.den : Nat) : Rat) ≠ 0 := ne_of_gt hd
    push_cast
    rw [eq_div_iff (by positivity : (2 * ((x.den : Nat) : Rat)) ≠ 0)]
    calc (((x.num.natAbs : Nat) : Rat) / ((x.den : Nat) : Rat) * ((10 : Rat) ^ p) + 1 / 2) *
          (2 * ((x.den : Nat) : Rat))
        = ((x.num.natAbs : Nat) : Rat) / ((x.den : Nat) : Rat) * ((x.den : Nat) : Rat) *
            ((10 : Rat) ^ p) * 2 + ((x.den : Nat) : Rat) := by ring
      _ = ((x.num.natAbs : Nat) : Rat) * ((10 : Rat) ^ p) * 2 + ((x.den : Nat) : Rat) := by
          rw [div_mul_cancel₀ _ hdne]
  rw [h1, Rat.floor_natCast_div_natCast]
  rfl

/-- The rounded value differs from the original by at most half a unit
in the last printed decimal place. -/
theorem roundDec_sub_abs_le (prec : Nat) (x : Rat) :
    |roundDec prec x - x| ≤ 1 / (2 * ((10 ^ prec : Nat) : Rat)) := by
  have hP : (0 : Rat) < ((10 ^ prec : Nat) : Rat) := by positivity
  have hfl := scaledRound_eq_floor prec x
  have hlow : ((scaledRound prec x : Nat) : Rat) ≤ |x| * ((10 ^ prec : Nat) : Rat) + 1 / 2 := by
    have h := Int.floor_le (|x| * ((10 ^ prec : Nat) : Rat) + 1 / 2)
    rw [← hfl] at h
    exact_mod_cast h
  have hhigh : |x| * ((10 ^ prec : Nat) : Rat) + 1 / 2 <
      ((scaledRound prec x : Nat) : Rat) + 1 := by
    have h := Int.lt_floor_add_one (|x| * ((10 ^ prec : Nat) : Rat) + 1 / 2)
    rw [← hfl] at h
    exact_mod_cast h
  have hval : roundDec prec x =
      (if x.num < 0 then -1 else 1) *
        (((scaledRound prec x : Nat) : Rat) / ((10 ^ prec : Nat) : Rat)) := by
    unfold roundDec
    by_cases hneg : x.num < 0
    · rw [if_pos hneg, if_pos hneg, Rat.divInt_eq_div]
      push_cast
      ring
    · rw [if_neg hneg, if_neg hneg, Rat.divInt_eq_div]
      push_cast
      ring
  have hnum2 : |((scaledRound prec x : Nat) : Rat) - |x| * ((10 ^ prec : Nat) : Rat)| ≤ 1 / 2 := by
    rw [abs_le]
    constructor
    · linarith
    · linarith
  have hmain : |((scaledRound prec x : Nat) : Rat) / ((10 ^ prec : Nat) : Rat) - (|x|)| ≤
      1 / (2 * ((10 ^ prec : Nat) : Rat)) := by
    have e1 : ((scaledRound prec x : Nat) : Rat) / ((10 ^ prec : Nat) : Rat) - |x| =
        (((scaledRound prec x : Nat) : Rat) - |x| * ((10 ^ prec : Nat) : Rat)) /
          ((10 ^ prec : Nat) : Rat) := by
      field_simp
      ring
    calc |((scaledRound prec x : Nat) : Rat) / ((10 ^ prec : Nat) : Rat) - (|x|)|
        = |((scaledRound prec x : Nat) : Rat) - |x| * ((10 ^ prec : Nat) : Rat)| /
            ((10 ^ prec : Nat) : Rat) := by
          rw [e1, abs_div, abs_of_pos hP]
      _ ≤ (1 / 2) / ((10 ^ prec : Nat) : Rat) := by gcongr
      _ = 1 / (2 * ((10 ^ prec : Nat) : Rat)) := by rw [div_div]
  by_cases hneg : x.num < 0
  · have hx : x < 0 := Rat.num_neg.mp hneg
    rw [hval, if_pos hneg]
    have habs : |x| = -x := abs_of_neg hx
    calc |(-1) * (((scaledRound prec x : Nat) : Rat) / ((10 ^ prec : Nat) : Rat)) - x|
        = |((scaledRound prec x : Nat) : Rat) / ((10 ^ prec : Nat) : Rat) - (|x|)| := by
          rw [habs]
          rw [show (-1 : Rat) * (((scaledRound prec x : Nat) : Rat) /
            ((10 ^ prec : Nat) : Rat)) - x =
            -((((scaledRound prec x : Nat) : Rat) / ((10 ^ prec : Nat) : Rat)) - -x) from by
              ring]
          rw [abs_neg]
      _ ≤ 1 / (2 * ((10 ^ prec : Nat) : Rat)) := hmain
  · have hx : 0 ≤ x := by
      by_contra hc
      exact hneg (Rat.num_neg.mpr (lt_of_not_ge hc))
    rw [hval, if_neg hneg]
    have habs : |x| = x := abs_of_nonneg hx
    calc |1 * (((scaledRound prec x : Nat) : Rat) / ((10 ^ prec : Nat) : Rat)) - x|
        = |((scaledRound prec x : Nat) : Rat) / ((10 ^ prec : Nat) : Rat) - (|x|)| := by
          rw [habs, one_mul]
      _ ≤ 1 / (2 * ((10 ^ prec : Nat) : Rat)) := hmain

/-- The four-digit zero-padded rendering, element by element. -/
theorem padDigits_four (n : Nat) :
    padDigits 4 n =
      [digitChar (n / 10 / 10 / 10 % 10), digitChar (n / 10 / 10 % 10),
       digitChar (n / 10 % 10), digitChar (n % 10)] := rfl

/-- The two-digit zero-padded rendering, element by element. -/
theorem padDigits_two (n : Nat) :
    padDigits 2 n = [digitChar (n / 10 % 10), digitChar (n % 10)] := rfl

/-- A successfully parsed date string is canonical: it is exactly the
formatted rendering of the parsed date. -/
theorem parseDateChars_canonical : ∀ {cs : List Char} {d : GoDate},
    parseDateChars cs = some d →
    cs = padDigits 4 d.year ++ '-' :: (padDigits 2 d.month ++ '-' :: padDigits 2 d.day) := by
  intro cs d h
  rcases cs with _ | ⟨c1, cs⟩
  · exact Option.noConfusion h
  rcases cs with _ | ⟨c2, cs⟩
  · exact Option.noConfusion h
  rcases cs with _ | ⟨c3, cs⟩
  · exact Option.noConfusion h
  rcases cs with _ | ⟨c4, cs⟩
  · exact Option.noConfusion h
  rcases cs with _ | ⟨c5, cs⟩
  · exact Option.noConfusion h
  rcases cs with _ | ⟨c6, cs⟩
  · exact Option.noConfusion h
  rcases cs with _ | ⟨c7, cs⟩
  · exact Option.noConfusion h
  rcases cs with _ | ⟨c8, cs⟩
  · exact Option.noConfusion h
  rcases cs with _ | ⟨c9, cs⟩
  · exact Option.noConfusion h
  rcases cs with _ | ⟨c10, cs⟩
  · exact Option.noConfusion h
  rcases cs with _ | ⟨c11, cs⟩
  · simp only [parseDateChars] at h
    split_ifs at h with hdash
    · obtain ⟨hd1, hd2⟩ := hdash
      rcases h1 : digitVal c1 with _ | va
      · rw [h1] at h; exact Option.noConfusion h
      rcases h2 : digitVal c2 with _ | vb
      · rw [h1, h2] at h; exact Option.noConfusion h
      rcases h3 : digitVal c3 with _ | vc
      · rw [h1, h2, h3] at h; exact Option.noConfusion h
      rcases h4 : digitVal c4 with _ | ve
      · rw [h1, h2, h3, h4] at h; exact Option.noConfusion h
      rcases h5 : digitVal c6 with _ | vf
      · rw [h1, h2, h3, h4, h5] at h; exact Option.noConfusion h
      rcases h6 : digitVal c7 with _ | vg
      · rw [h1, h2, h3, h4, h5, h6] at h; exact Option.noConfusion h
      rcases h7 : digitVal c9 with _ | vh
      · rw [h1, h2, h3, h4, h5, h6, h7] at h; exact Option.noConfusion h
      rcases h8 : digitVal c10 with _ | vi
      · rw [h1, h2, h3, h4, h5, h6, h7, h8] at h; exact Option.noConfusion h
      rw [h1, h2, h3, h4, h5, h6, h7, h8] at h
      simp only [Option.bind_eq_bind, Option.some_bind] at h
      split_ifs at h with hrange
      · have hva := digitVal_lt h1
        have hvb := digitVal_lt h2
        have hvc := digitVal_lt h3
        have hve := digitVal_lt h4
        have hvf := digitVal_lt h5
        have hvg := digitVal_lt h6
        have hvh := digitVal_lt h7
        have hvi := digitVal_lt h8
        injection h with h
        subst h
        rw [padDigits_four, padDigits_two, padDigits_two]
        have e1 : (((va * 10 + vb) * 10 + vc) * 10 + ve) / 10 / 10 / 10 % 10 = va := by omega
        have e2 : (((va * 10 + vb) * 10 + vc) * 10 + ve) / 10 / 10 % 10 = vb := by omega
        have e3 : (((va * 10 + vb) * 10 + vc) * 10 + ve) / 10 % 10 = vc := by omega
        have e4 : (((va * 10 + vb) * 10 + vc) * 10 + ve) % 10 = ve := by omega
        have f1 : (vf * 10 + vg) / 10 % 10 = vf := by omega
        have f2 : (vf * 10 + vg) % 10 = vg := by omega
        have g1 : (vh * 10 + vi) / 10 % 10 = vh := by omega
        have g2 : (vh * 10 + vi) % 10 = vi := by omega
        rw [e1, e2, e3, e4, f1, f2, g1, g2]
        rw [digitChar_digitVal h1, digitChar_digitVal h2, digitChar_digitVal h3,
          digitChar_digitVal h4, digitChar_digitVal h5, digitChar_digitVal h6,
          digitChar_digitVal h7, digitChar_digitVal h8]
        subst hd1
        subst hd2
        rfl
  · exact Option.noConfusion h

/-- A successfully parsed date formats back to the original string. -/
theorem parseDate_canonical {s : String} {d : GoDate} (h : parseDate s = some d) :
    formatDate d = s := by
  have hc := parseDateChars_canonical (h : parseDateChars s.data = some d)
  apply string_data_inj
  rw [hc]
  rfl

/-- C7 (amended): for every valid 5-field row whose coordinates are not
both zero (so the geocode resolver is not invoked), parsing into a
visit and serializing back through `(*visit).strings` yields the same
date, purpose and address fields, and latitude/longitude fields whose
values are the originals rounded to 4 decimal places — accurate to
within half a unit of the 4th decimal (1/20000).  Rows that parse to
the sentinel (0,0) may have their address and coordinates replaced by
the resolver (see the counterexample). -/
theorem c7_round_trip (oracle : String → FetchOutcome) (fs : List String) (d : GoDate)
    (lat lng : Rat)
    (h5 : fs.length = 5)
    (hdtrim : goTrim (fs.getD 0 "") = fs.getD 0 "")
    (hdate : parseDate (fs.getD 0 "") = some d)
    (hptrim : goTrim (fs.getD 1 "") = fs.getD 1 "")
    (hatrim : goTrim (fs.getD 2 "") = fs.getD 2 "")
    (hlat : goParseFloat (goTrim (fs.getD 3 "")) = some lat)
    (hlng : goParseFloat (goTrim (fs.getD 4 "")) = some lng)
    (hsent : ¬(lat = 0 ∧ lng = 0)) :
    visitFromStringsV2 oracle fs =
      some { address := fs.getD 2 "", when := d, purpose := fs.getD 1 "",
             lat := lat, lng := lng } ∧
    visitStrings { address := fs.getD 2 "", when := d, purpose := fs.getD 1 "",
                   lat := lat, lng := lng } =
      [fs.getD 0 "", fs.getD 1 "", fs.getD 2 "", fmtFloatFixed 4 lat, fmtFloatFixed 4 lng] ∧
    goParseFloat (fmtFloatFixed 4 lat) = some (roundDec 4 lat) ∧
    |roundDec 4 lat - lat| ≤ 1 / 20000 ∧
    goParseFloat (fmtFloatFixed 4 lng) = some (roundDec 4 lng) ∧
    |roundDec 4 lng - lng| ≤ 1 / 20000 := by
  have hbound : (1 : Rat) / (2 * ((10 ^ 4 : Nat) : Rat)) = 1 / 20000 := by norm_num
  refine ⟨?_, ?_, goParseFloat_fmtFloatFixed 4 lat, ?_, goParseFloat_fmtFloatFixed 4 lng, ?_⟩
  · unfold visitFromStringsV2
    rw [if_pos h5]
    simp only [← List.getD_eq_getElem?_getD]
    rw [hdtrim, hptrim, hatrim, hlat, hlng]
    unfold goParseDate
    rw [hdate]
    simp only [Option.getD_some]
    rw [if_neg hsent]
  · unfold visitStrings
    rw [parseDate_canonical hdate]
  · have h := roundDec_sub_abs_le 4 lat
    rwa [hbound] at h
  · have h := roundDec_sub_abs_le 4 lng
    rwa [hbound] at h

/-- C7 counterexample to the claim as stated: a valid 5-field row whose
coordinates are "0","0" triggers the geocode lookup, which (on a
resolving network) replaces the address and coordinates, so the
serialized row's address field is "Other", not the original "Addr". -/
theorem c7_counterexample_sentinel_row_rewritten :
    parseDate "2020-01-01" = some ⟨2020, 1, 1⟩ ∧
    goParseFloat "0" = some 0 ∧
    visitFromStringsV2 okOracle ["2020-01-01", "p", "Addr", "0", "0"] =
      some { address := "Other", when := ⟨2020, 1, 1⟩, purpose := "p",
             lat := mkRat 3 2, lng := mkRat 5 2 } ∧
    (visitStrings { address := "Other", when := ⟨2020, 1, 1⟩, purpose := "p",
                    lat := mkRat 3 2, lng := mkRat 5 2 }).getD 2 "" = "Other" ∧
    "Other" ≠ "Addr" := by
  refine ⟨by decide, by decide, by decide, by decide, by decide⟩

/-- Witness for C7 at a concrete valid row with non-sentinel
coordinates. -/
theorem c7_witness :
    (["2020-01-01", "museum", "123 Main St", "40.0000", "-75.0000"] : List String).length = 5 ∧
    goTrim "2020-01-01" = "2020-01-01" ∧
    parseDate "2020-01-01" = some ⟨2020, 1, 1⟩ ∧
    goTrim "museum" = "museum" ∧
    goTrim "123 Main St" = "123 Main St" ∧
    goParseFloat (goTrim "40.0000") = some (mkRat 40 1) ∧
    goParseFloat (goTrim "-75.0000") = some (-(mkRat 75 1)) ∧
    ¬(mkRat 40 1 = 0 ∧ -(mkRat 75 1) = 0) ∧
    (visitFromStringsV2 noNetwork ["2020-01-01", "museum", "123 Main St", "40.0000", "-75.0000"] =
        some { address := "123 Main St", when := ⟨2020, 1, 1⟩, purpose := "museum",
               lat := mkRat 40 1, lng := -(mkRat 75 1) } ∧
      visitStrings { address := "123 Main St", when := ⟨2020, 1, 1⟩, purpose := "museum",
                     lat := mkRat 40 1, lng := -(mkRat 75 1) } =
        ["2020-01-01", "museum", "123 Main St", fmtFloatFixed 4 (mkRat 40 1),
         fmtFloatFixed 4 (-(mkRat 75 1))] ∧
      goParseFloat (fmtFloatFixed 4 (mkRat 40 1)) = some (roundDec 4 (mkRat 40 1)) ∧
      |roundDec 4 (mkRat 40 1) - mkRat 40 1| ≤ 1 / 20000 ∧
      goParseFloat (fmtFloatFixed 4 (-(mkRat 75 1))) = some (roundDec 4 (-(mkRat 75 1))) ∧
      |roundDec 4 (-(mkRat 75 1)) - -(mkRat 75 1)| ≤ 1 / 20000) :=
  ⟨by decide, by decide, by decide, by decide, by decide, by decide, by decide, by decide,
   c7_round_trip noNetwork ["2020-01-01", "museum", "123 Main St", "40.0000", "-75.0000"]
     ⟨2020, 1, 1⟩ (mkRat 40 1) (-(mkRat 75 1)) (by decide) (by decide) (by decide) (by decide)
     (by decide) (by decide) (by decide) (by decide)⟩

end Travel
